import Mathlib

/-!
# Bounded-memory Brotli decompression front end (`src/src/main.c`)

A shallow embedding of the C translation unit: the process-wide result slot
`g_state`, the decompression routine `safe_decompress_brotli` with its
grow-by-doubling output buffer, and the transfer callbacks around it.

Modelling conventions

* `size_t` is the 32-bit unsigned type of the wasm32 target: products and
  differences of sizes are reduced modulo `2 ^ 32`.
* A pointer to bytes is an `Option (List Byte)`; `none` is `NULL`.  An offset
  into a buffer stands for a cursor (`next_in`, `next_out`).
* The Brotli decoder is an external library.  It is a parameter (`Codec`): a
  state type, an optional initial state and a step function telling, for one
  call of `BrotliDecoderDecompressStream`, the result code, how many input
  bytes were consumed and which bytes were written at `next_out`.
* `malloc` / `realloc` are external as well.  An `Allocator` decides for each
  request whether it is granted and which indeterminate bytes a fresh block
  holds.
* `emscripten_get_now` readings are passed in as integers; console output
  (`printf`) is not part of the model.
-/

namespace SfDecoder

/-! ## Machine-level basics -/

/-- A `uint8_t` / `char` value, kept as a natural number. -/
abbrev Byte := Nat

/-- Number of values of `size_t` on wasm32. -/
def SIZE_MOD : Nat := 2 ^ 32

/-- Product of two `size_t` values. -/
def mulSz (a b : Nat) : Nat := (a * b) % SIZE_MOD

/-- Difference of two `size_t` values (wraps around below zero). -/
def subSz (a b : Nat) : Nat := (a + SIZE_MOD - b % SIZE_MOD) % SIZE_MOD

/-- Macro `#define MAX_DECOMPRESSION_RATIO 10` -/
def MAX_DECOMPRESSION_RATIO : Nat := 10

/-- Macro `#define INITIAL_BUFFER_SIZE (1024 * 1024)` -/
def INITIAL_BUFFER_SIZE : Nat := 1024 * 1024

/-- Macro `#define MAX_BUFFER_SIZE (200 * 1024 * 1024)` -/
def MAX_BUFFER_SIZE : Nat := 200 * 1024 * 1024

/-- The bytes of a C string literal (UTF-8, without the terminator). -/
def cbytes (s : String) : List Byte :=
  (s.data.flatMap String.utf8EncodeChar).map UInt8.toNat

/-- The C string stored at the start of a byte sequence: everything before the
first NUL. -/
def cstr (m : List Byte) : List Byte := m.takeWhile (fun b => b ≠ 0)

/-- Function `strlen` -/
def strlen (m : List Byte) : Nat := (cstr m).length

/-- Function `strncpy(dest, src, n)`: the characters of `src` up to `n` of them, then NUL
padding so that exactly `n` bytes of `dest` are written; the rest of `dest` is
left alone. -/
def strncpy (dest src : List Byte) (n : Nat) : List Byte :=
  (cstr src).take n ++ List.replicate (n - ((cstr src).take n).length) 0 ++ dest.drop n

/-- Function `memcpy(dest, src, n)` -/
def memcpy (dest src : List Byte) (n : Nat) : List Byte :=
  src.take n ++ dest.drop n

/-- Storing the bytes `w` into `buf` from offset `pos` on (what the decoder does
at `next_out`).  The buffer keeps its length. -/
def writeAt (buf : List Byte) (pos : Nat) (w : List Byte) : List Byte :=
  (buf.take pos ++ w ++ buf.drop (pos + w.length)).take buf.length

/-! ## Result state -/

/-- The array type `char[256]`. -/
abbrev ErrBuf := { m : List Byte // m.length = 256 }

/-- Type `typedef struct { ... } SafeState;` -/
structure SafeState where
  data : Option (List Byte)
  size : Nat
  download_time : Int
  decompress_time : Int
  error_code : Int
  error_message : ErrBuf
deriving DecidableEq

/-- An all-zero `char[256]`. -/
def zeroMessage : ErrBuf := ⟨List.replicate 256 0, List.length_replicate 256 0⟩

/-- Global `SafeState g_state = {0};` -/
def g_state_init : SafeState :=
  { data := none, size := 0, download_time := 0, decompress_time := 0,
    error_code := 0, error_message := zeroMessage }

/-- Function `void safe_cleanup()` -/
def safe_cleanup (g : SafeState) : SafeState :=
  { g with data := none, size := 0, error_code := 0, error_message := zeroMessage }

/-- Function `void set_error(const char* message, int code)` -/
def set_error (g : SafeState) (message : List Byte) (code : Int) : SafeState :=
  { g with
    error_code := code
    error_message :=
      ⟨(strncpy g.error_message.1 message (256 - 1)).set (256 - 1) 0, by
        have h := g.error_message.2
        simp only [List.length_set, strncpy, List.length_append, List.length_replicate,
          List.length_drop, List.length_take]
        omega⟩ }

/-- Function `uint8_t* get_decompressed_data()` -/
def get_decompressed_data (g : SafeState) : Option (List Byte) := g.data

/-- Function `size_t get_decompressed_size()` -/
def get_decompressed_size (g : SafeState) : Nat := g.size

/-- Function `const char* get_error_message()`: the C string held in the message array. -/
def get_error_message (g : SafeState) : List Byte := cstr g.error_message.1

/-- Function `int get_error_code()` -/
def get_error_code (g : SafeState) : Int := g.error_code

/-- Function `void free_resources()` -/
def free_resources (g : SafeState) : SafeState := safe_cleanup g

/-- Function `void init_module()` -/
def init_module (g : SafeState) : SafeState := safe_cleanup g

/-! ## External collaborators: decoder and allocator -/

/-- Enumeration `BrotliDecoderResult` of `brotli/decode.h`. -/
inductive BrotliDecoderResult where
  | ERROR
  | SUCCESS
  | NEEDS_MORE_INPUT
  | NEEDS_MORE_OUTPUT
deriving DecidableEq, Repr

/-- What one call of `BrotliDecoderDecompressStream` did. -/
structure StreamStep (σ : Type) where
  result : BrotliDecoderResult
  state : σ
  consumed : Nat
  written : List Byte

/-- The decoder library.  `BrotliDecoderCreateInstance` is `none` when the
library returns `NULL`.  `BrotliDecoderDecompressStream s inp ain aout` is a
call in decoder state `s` with `inp` the bytes at `next_in`,
`ain = available_in` and `aout = available_out`. -/
structure Codec (σ : Type) where
  BrotliDecoderCreateInstance : Option σ
  BrotliDecoderDecompressStream : σ → List Byte → Nat → Nat → StreamStep σ

/-- The decoder never writes past the output space it was offered. -/
def Codec.WellBehaved {σ : Type} (codec : Codec σ) : Prop :=
  ∀ s inp ain aout, (codec.BrotliDecoderDecompressStream s inp ain aout).written.length ≤ aout

/-- The heap.  `grants k n` tells whether the `k`-th request of a call, for `n`
bytes, succeeds; `junk k i` is the indeterminate byte at offset `i` of the
block it returns. -/
structure Allocator where
  grants : Nat → Nat → Bool
  junk : Nat → Nat → Byte

/-- Function `malloc(n)` as the `k`-th request. -/
def malloc (a : Allocator) (k n : Nat) : Option (List Byte) :=
  if a.grants k n then some ((List.range n).map (a.junk k)) else none

/-- Function `realloc(old, n)` as the `k`-th request: the old contents are kept. -/
def realloc (a : Allocator) (k : Nat) (old : List Byte) (n : Nat) : Option (List Byte) :=
  if a.grants k n then
    some (old.take n ++ (List.range (n - old.length)).map (fun i => a.junk k (old.length + i)))
  else none

/-! ## `safe_decompress_brotli` -/

/-- The local variables of `safe_decompress_brotli` during the decode loop,
with `g_state`, and a record of what happened so far (`requests`: the sizes
asked of the allocator; `calls`: how often the decoder ran; `produced`: all
bytes the decoder wrote, in order). -/
structure Run (σ : Type) where
  g : SafeState
  state : σ
  available_in : Nat
  next_in : Nat
  available_out : Nat
  next_out : Nat
  buffer : List Byte
  buffer_size : Nat
  requests : List Nat
  calls : Nat
  produced : List Byte

/-- The call `result = BrotliDecoderDecompressStream(state, &available_in,
&next_in, &available_out, &next_out, NULL)`: the decoder consumes input,
stores what it writes at `next_out`, and advances both cursors. -/
def callDecoder {σ : Type} (codec : Codec σ) (input : List Byte) (r : Run σ) :
    BrotliDecoderResult × Run σ :=
  let step := codec.BrotliDecoderDecompressStream r.state (input.drop r.next_in)
    r.available_in r.available_out
  (step.result,
    { r with
      state := step.state
      available_in := subSz r.available_in step.consumed
      next_in := r.next_in + step.consumed
      available_out := subSz r.available_out step.written.length
      next_out := r.next_out + step.written.length
      buffer := writeAt r.buffer r.next_out step.written
      calls := r.calls + 1
      produced := r.produced ++ step.written })

/-- How one pass through the loop body ends: the loop goes round again, or it
is left (by `break` or because the loop condition fails) with the last decoder
result. -/
inductive LoopStep (σ : Type) where
  | again : Run σ → LoopStep σ
  | leave : BrotliDecoderResult → Run σ → LoopStep σ

/-- The body of the `do { ... } while (result == BROTLI_DECODER_RESULT_NEEDS_MORE_OUTPUT)`
loop, with the test of the loop condition. -/
def loopBody {σ : Type} (codec : Codec σ) (alloc : Allocator) (input : List Byte)
    (r : Run σ) : LoopStep σ :=
  let result := (callDecoder codec input r).1
  let r1 := (callDecoder codec input r).2
  match result with
  | BrotliDecoderResult.NEEDS_MORE_OUTPUT =>
    let used := subSz r1.buffer_size r1.available_out
    let new_buffer_size := mulSz r1.buffer_size 2
    if new_buffer_size > MAX_BUFFER_SIZE then
      LoopStep.leave result
        { r1 with g := set_error r1.g (cbytes "Límite máximo de descompresión excedido") 5 }
    else
      match realloc alloc r1.requests.length r1.buffer new_buffer_size with
      | none =>
        LoopStep.leave result
          { r1 with
            g := set_error r1.g (cbytes "Fallo al redimensionar el búfer de descompresión") 6
            requests := r1.requests ++ [new_buffer_size] }
      | some new_buffer =>
        LoopStep.again
          { r1 with
            buffer := new_buffer
            next_out := used
            available_out := subSz new_buffer_size used
            buffer_size := new_buffer_size
            requests := r1.requests ++ [new_buffer_size] }
  | BrotliDecoderResult.ERROR =>
    LoopStep.leave result
      { r1 with g := set_error r1.g (cbytes "Error durante la descompresión Brotli") 7 }
  | _ => LoopStep.leave result r1

/-- The do-while loop.  `fuel` bounds the number of passes; `none` means the
bound was reached with the loop still running. -/
def decodeLoop {σ : Type} (codec : Codec σ) (alloc : Allocator) (input : List Byte) :
    Nat → Run σ → Option (BrotliDecoderResult × Run σ)
  | 0, _ => none
  | fuel + 1, r =>
    match loopBody codec alloc input r with
    | LoopStep.again r2 => decodeLoop codec alloc input fuel r2
    | LoopStep.leave result r2 => some (result, r2)

/-- What a call of `safe_decompress_brotli` returns and leaves behind: the
return value, the new `g_state`, and the record of the run (`result` is the
last decoder result, `none` when the decoder was never called). -/
structure Outcome where
  ret : Int
  g : SafeState
  requests : List Nat
  calls : Nat
  produced : List Byte
  result : Option BrotliDecoderResult
deriving DecidableEq

/-- The initial capacity, lines 59 to 62:
`buffer_size = compressed_size * MAX_DECOMPRESSION_RATIO`, lowered to
`MAX_BUFFER_SIZE` when it is larger. -/
def initialBufferSize (compressed_size : Nat) : Nat :=
  let buffer_size := mulSz compressed_size MAX_DECOMPRESSION_RATIO
  if buffer_size > MAX_BUFFER_SIZE then MAX_BUFFER_SIZE else buffer_size

/-- The variables as set up before the loop, lines 77 to 83. -/
def initialRun {σ : Type} (g : SafeState) (state : σ) (compressed_size : Nat)
    (buffer : List Byte) (buffer_size : Nat) : Run σ :=
  { g := g, state := state, available_in := compressed_size, next_in := 0,
    available_out := buffer_size, next_out := 0, buffer := buffer,
    buffer_size := buffer_size, requests := [buffer_size], calls := 0, produced := [] }

/-- The part after the loop, lines 115 to 138: on `SUCCESS` with a non-empty
output the previous result is released and a copy of the output is stored in
`g_state`. -/
def publish {σ : Type} (alloc : Allocator) (result : BrotliDecoderResult) (r : Run σ) :
    Outcome :=
  if result = BrotliDecoderResult.SUCCESS then
    let decompressed_size := subSz r.buffer_size r.available_out
    if decompressed_size = 0 then
      ⟨0, set_error r.g (cbytes "Datos descomprimidos vacíos") 8,
        r.requests, r.calls, r.produced, some result⟩
    else
      let g1 := safe_cleanup r.g
      match malloc alloc r.requests.length decompressed_size with
      | none =>
        ⟨0, set_error g1 (cbytes "Fallo al asignar memoria para datos descomprimidos") 9,
          r.requests ++ [decompressed_size], r.calls, r.produced, some result⟩
      | some fresh =>
        ⟨1,
          { g1 with
            data := some (memcpy fresh r.buffer decompressed_size)
            size := decompressed_size },
          r.requests ++ [decompressed_size], r.calls, r.produced, some result⟩
  else
    ⟨0, r.g, r.requests, r.calls, r.produced, some result⟩

/-- Function `int safe_decompress_brotli(const uint8_t* compressed_data,
size_t compressed_size)`; `none` means the loop did not finish within `fuel` passes. -/
def safe_decompress_brotli {σ : Type} (codec : Codec σ) (alloc : Allocator) (fuel : Nat)
    (g : SafeState) (compressed_data : Option (List Byte)) (compressed_size : Nat) :
    Option Outcome :=
  match compressed_data with
  | none => some ⟨0, set_error g (cbytes "Datos comprimidos inválidos") 1, [], 0, [], none⟩
  | some input =>
    if compressed_size = 0 then
      some ⟨0, set_error g (cbytes "Datos comprimidos inválidos") 1, [], 0, [], none⟩
    else if compressed_size > 50 * 1024 * 1024 then
      some ⟨0, set_error g
        (cbytes "Archivo comprimido demasiado grande para descomprimir de forma segura") 2,
        [], 0, [], none⟩
    else
      let buffer_size := initialBufferSize compressed_size
      match malloc alloc 0 buffer_size with
      | none =>
        some ⟨0, set_error g (cbytes "Fallo de asignación de memoria") 3,
          [buffer_size], 0, [], none⟩
      | some buffer =>
        match codec.BrotliDecoderCreateInstance with
        | none =>
          some ⟨0, set_error g (cbytes "No se pudo crear el estado del decodificador Brotli") 4,
            [buffer_size], 0, [], none⟩
        | some state =>
          match decodeLoop codec alloc input fuel
              (initialRun g state compressed_size buffer buffer_size) with
          | none => none
          | some (result, r) => some (publish alloc result r)

/-! ## Transfer callbacks -/

/-- One call of the host function `onDecompressionComplete($0, $1, $2, $3)`. -/
structure Notification where
  download_time : Int
  decompress_time : Int
  size : Nat
  error_code : Int
deriving DecidableEq

/-- The fields of `emscripten_fetch_t` the callbacks read. -/
structure Fetch where
  data : Option (List Byte)
  numBytes : Nat
  status : Nat

/-- The program together with its host: `g_state`, whether the page defines
`onDecompressionComplete` as a function, the URLs of the transfers handed to
`emscripten_fetch`, the number of `emscripten_fetch_close` calls, and the
notifications delivered so far. -/
structure Host where
  g_state : SafeState
  hook : Bool
  fetches : List (List Byte)
  closed : Nat
  notifications : List Notification

/-- The `EM_ASM` block: calls `onDecompressionComplete` when it is a function. -/
def notify (h : Host) (n : Notification) : Host :=
  if h.hook then { h with notifications := h.notifications ++ [n] } else h

/-- Function `void download_success(emscripten_fetch_t* fetch)`; `now0`, `now1`, `now2`
are the three readings of `emscripten_get_now` in source order. -/
def download_success {σ : Type} (codec : Codec σ) (alloc : Allocator) (fuel : Nat)
    (h : Host) (fetch : Fetch) (now0 now1 now2 : Int) : Option Host :=
  let g := { h.g_state with download_time := now0 - h.g_state.download_time }
  if fetch.data = none ∨ fetch.numBytes = 0 then
    some { h with
      g_state := set_error g (cbytes "Datos descargados vacíos o inválidos") 10
      closed := h.closed + 1 }
  else
    let start_decompress := now1
    match safe_decompress_brotli codec alloc fuel g fetch.data (fetch.numBytes % SIZE_MOD) with
    | none => none
    | some o =>
      let g := { o.g with decompress_time := now2 - start_decompress }
      let h1 := { h with g_state := g }
      let h2 :=
        if o.ret ≠ 0 then
          notify h1 ⟨g.download_time, g.decompress_time, g.size, 0⟩
        else
          notify h1 ⟨g.download_time, g.decompress_time, 0, g.error_code⟩
      some { h2 with closed := h2.closed + 1 }

/-- Function `void download_failed(emscripten_fetch_t* fetch)` -/
def download_failed (h : Host) (fetch : Fetch) : Host :=
  let h1 := { h with g_state := set_error h.g_state (cbytes "Error en la descarga") 11 }
  let h2 := notify h1 ⟨0, 0, 0, fetch.status⟩
  { h2 with closed := h2.closed + 1 }

/-- Function `void initiate_download(const char* url)`; `now` is the reading of
`emscripten_get_now`. -/
def initiate_download (h : Host) (url : Option (List Byte)) (now : Int) : Host :=
  match url with
  | none => { h with g_state := set_error h.g_state (cbytes "URL inválida") 12 }
  | some u =>
    if strlen u = 0 then
      { h with g_state := set_error h.g_state (cbytes "URL inválida") 12 }
    else
      let g := safe_cleanup h.g_state
      let g := { g with download_time := now }
      { h with g_state := g, fetches := h.fetches ++ [cstr u] }

/-! ## Decoders and allocators used as concrete instances -/

/-- A heap that grants every request and hands out blocks filled with `0xAA`. -/
def plentifulHeap : Allocator := { grants := fun _ _ => true, junk := fun _ _ => 170 }

/-- A decoder whose input ends before the stream does: it writes nothing and
asks for more input. -/
def truncatedStream : Codec Unit :=
  { BrotliDecoderCreateInstance := some ()
    BrotliDecoderDecompressStream := fun _ _ _ _ =>
      ⟨BrotliDecoderResult.NEEDS_MORE_INPUT, (), 0, []⟩ }

/-- A decoder of a valid stream whose decompressed form is `out`.  The state is
the number of bytes delivered so far.  When the rest does not fit the space
offered, it fills the space and asks for more output. -/
def streamOf (out : List Byte) : Codec Nat :=
  { BrotliDecoderCreateInstance := some 0
    BrotliDecoderDecompressStream := fun k _ ain aout =>
      if aout < (out.drop k).length then
        ⟨BrotliDecoderResult.NEEDS_MORE_OUTPUT, k + aout, 0, (out.drop k).take aout⟩
      else
        ⟨BrotliDecoderResult.SUCCESS, out.length, ain, out.drop k⟩ }

/-- While more output is pending than the space offered, the decoder fills the
space and reports `NEEDS_MORE_OUTPUT`.  `pending s` is the number of bytes of
the decompressed stream not yet delivered in state `s`. -/
def Codec.Fills {σ : Type} (codec : Codec σ) (pending : σ → Nat) : Prop :=
  ∀ s inp ain aout, aout < pending s →
    (codec.BrotliDecoderDecompressStream s inp ain aout).result
        = BrotliDecoderResult.NEEDS_MORE_OUTPUT ∧
    (codec.BrotliDecoderDecompressStream s inp ain aout).written.length = aout ∧
    pending (codec.BrotliDecoderDecompressStream s inp ain aout).state = pending s - aout

/-- When the pending output fits the space offered, the decoder delivers all of
it and reports `SUCCESS` (the stream is valid and complete). -/
def Codec.Completes {σ : Type} (codec : Codec σ) (pending : σ → Nat) : Prop :=
  ∀ s inp ain aout, pending s ≤ aout →
    (codec.BrotliDecoderDecompressStream s inp ain aout).result
        = BrotliDecoderResult.SUCCESS ∧
    (codec.BrotliDecoderDecompressStream s inp ain aout).written.length = pending s ∧
    pending (codec.BrotliDecoderDecompressStream s inp ain aout).state = 0

/-- A host whose result slot still holds the three bytes of an earlier
successful operation. -/
def staleHost : Host :=
  { g_state := { g_state_init with data := some [1, 2, 3], size := 3 }
    hook := true, fetches := [], closed := 0, notifications := [] }

/-- The output cursor agrees with the buffer: the block has the recorded
capacity, the capacity is within the ceiling, the bytes before `next_out`
together with the space still available make up the capacity, and the bytes
before `next_out` are exactly what the decoder has produced. -/
def Run.Sound {σ : Type} (r : Run σ) : Prop :=
  r.buffer.length = r.buffer_size ∧ r.buffer_size ≤ MAX_BUFFER_SIZE ∧
  r.next_out + r.available_out = r.buffer_size ∧ r.buffer.take r.next_out = r.produced

/-- A decoder that finds its input corrupt: it writes nothing and reports
`ERROR`. -/
def corruptStream : Codec Unit :=
  { BrotliDecoderCreateInstance := some ()
    BrotliDecoderDecompressStream := fun _ _ _ _ => ⟨BrotliDecoderResult.ERROR, (), 0, []⟩ }

/-- The outcome of decompressing, on top of the stale result of `staleHost`, a
one-byte input whose stream decodes to the bytes 7, 8, 9. -/
def threeByteOutcome : Outcome :=
  { ret := 1
    g := { g_state_init with data := some [7, 8, 9], size := 3 }
    requests := [10, 3]
    calls := 1
    produced := [7, 8, 9]
    result := some BrotliDecoderResult.SUCCESS }

/-- The outcome of decompressing a corrupt one-byte stream on the initial
state: failure 7 is recorded and nothing is stored. -/
def corruptOutcome : Outcome :=
  { ret := 0
    g := set_error g_state_init (cbytes "Error durante la descompresión Brotli") 7
    requests := [10]
    calls := 1
    produced := []
    result := some BrotliDecoderResult.ERROR }

/-- The outcome of decompressing, on the initial state, a one-byte input whose
stream decodes to no bytes at all. -/
def emptyOutcome : Outcome :=
  { ret := 0
    g := set_error g_state_init (cbytes "Datos descomprimidos vacíos") 8
    requests := [10]
    calls := 1
    produced := []
    result := some BrotliDecoderResult.SUCCESS }

/-- A result state as an earlier failed operation leaves it: error code 7 and
its message are set, no data is held. -/
def failedState : SafeState :=
  set_error g_state_init (cbytes "Error durante la descompresión Brotli") 7

/-- The invariant of the result slot: the data pointer is non-null exactly when
the size is positive. -/
def SafeState.Consistent (g : SafeState) : Prop := g.data ≠ none ↔ 0 < g.size

/-- The variables after each pass through the loop body, in order, for at most
`fuel` passes; the last entry of a finished loop is the state it is left in. -/
def loopTrace {σ : Type} (codec : Codec σ) (alloc : Allocator) (input : List Byte) :
    Nat → Run σ → List (Run σ)
  | 0, _ => []
  | fuel + 1, r =>
    match loopBody codec alloc input r with
    | LoopStep.again r2 => r2 :: loopTrace codec alloc input fuel r2
    | LoopStep.leave _ r2 => [r2]

/-- The decoder never increases `available_out`: after a call the space left is
at most the space offered. -/
def Codec.NeverIncreases {σ : Type} (codec : Codec σ) : Prop :=
  ∀ s inp ain aout,
    subSz aout (codec.BrotliDecoderDecompressStream s inp ain aout).written.length ≤ aout

/-- A decoder that answers `NEEDS_MORE_OUTPUT` forever, writing nothing. -/
def endlessStream : Codec Unit :=
  { BrotliDecoderCreateInstance := some ()
    BrotliDecoderDecompressStream := fun _ _ _ _ =>
      ⟨BrotliDecoderResult.NEEDS_MORE_OUTPUT, (), 0, []⟩ }

/-- The variables before the first pass for a one-byte input, with the 10-byte
block `plentifulHeap` hands out. -/
def firstRun : Run Nat :=
  initialRun g_state_init 0 1 ((List.range 10).map (plentifulHeap.junk 0)) (initialBufferSize 1)

/-- The variables after the first pass of the loop on `firstRun` with the
decoder of the 25 bytes 0 to 24: the buffer was filled and has been grown. -/
def grownRun : Run Nat :=
  match loopBody (streamOf (List.range 25)) plentifulHeap [27] firstRun with
  | LoopStep.again r => r
  | LoopStep.leave _ r => r

/-- A host page that defines `onDecompressionComplete`, before any operation. -/
def idleHost : Host :=
  { g_state := g_state_init, hook := true, fetches := [], closed := 0, notifications := [] }

/-- The host after `initiate_download("a")` at clock reading 100: the result
slot is reset and one transfer is pending. -/
def pendingHost : Host := initiate_download idleHost (some [97]) 100

/-! ## Strings and the error fields -/

theorem cstr_append_nul (s rest : List Byte) (hs : ∀ b ∈ s, b ≠ 0) :
    cstr (s ++ 0 :: rest) = s := by
  unfold cstr
  induction s with
  | nil => simp
  | cons a t ih =>
    have ha : a ≠ 0 := hs a (List.mem_cons_self a t)
    have ih2 := ih (fun b hb => hs b (List.mem_cons_of_mem a hb))
    simp only [List.cons_append, List.takeWhile_cons, ha, ne_eq, not_false_eq_true, decide_True,
      ite_true, ih2]

theorem cstr_nonzero (m : List Byte) : ∀ b ∈ cstr m, b ≠ 0 := by
  intro b hb
  have := List.mem_takeWhile_imp hb
  simpa using this

theorem strncpy_terminated (m src : List Byte) (hm : m.length = 256) :
    (strncpy m src 255).set 255 0 =
      (cstr src).take 255 ++ List.replicate (256 - ((cstr src).take 255).length) 0 := by
  have hT : ((cstr src).take 255).length ≤ 255 := by
    rw [List.length_take]; omega
  unfold strncpy
  generalize (cstr src).take 255 = T at hT
  apply List.ext_getElem
  · simp only [List.length_set, List.length_append, List.length_replicate, List.length_drop]
    omega
  · intro i h1 h2
    have h3 : i < 256 := by
      simp only [List.length_append, List.length_replicate] at h2
      omega
    simp only [List.getElem_set, List.getElem_append, List.getElem_replicate, List.length_append,
      List.length_replicate]
    split_ifs <;> first | rfl | omega

theorem set_error_message (g : SafeState) (message : List Byte) (code : Int) :
    (set_error g message code).error_message.1 =
      (cstr message).take 255 ++ List.replicate (256 - ((cstr message).take 255).length) 0 :=
  strncpy_terminated g.error_message.1 message g.error_message.2

theorem get_error_message_set_error (g : SafeState) (message : List Byte) (code : Int) :
    get_error_message (set_error g message code) = (cstr message).take 255 := by
  unfold get_error_message
  rw [set_error_message]
  have hT : ((cstr message).take 255).length ≤ 255 := by
    rw [List.length_take]; omega
  have hk : 256 - ((cstr message).take 255).length
      = (255 - ((cstr message).take 255).length) + 1 := by omega
  rw [hk, List.replicate_succ]
  exact cstr_append_nul _ _ (fun b hb => cstr_nonzero message b (List.mem_of_mem_take hb))

theorem set_error_data (g : SafeState) (message : List Byte) (code : Int) :
    (set_error g message code).data = g.data := rfl

theorem set_error_size (g : SafeState) (message : List Byte) (code : Int) :
    (set_error g message code).size = g.size := rfl

theorem set_error_code (g : SafeState) (message : List Byte) (code : Int) :
    (set_error g message code).error_code = code := rfl

/-! ## Claims on the result state -/

/-- C9: `free_resources` and `init_module` are idempotent on the result state.
For every state, one application leaves data null, size 0, error code 0 and an
all-zero message array, and a second application gives the same state as the
first. -/
theorem cleanup_entry_points_idempotent (g : SafeState) :
    (get_decompressed_data (free_resources g) = none ∧
      get_decompressed_size (free_resources g) = 0 ∧
      get_error_code (free_resources g) = 0 ∧
      (free_resources g).error_message.1 = List.replicate 256 0 ∧
      free_resources (free_resources g) = free_resources g) ∧
    (get_decompressed_data (init_module g) = none ∧
      get_decompressed_size (init_module g) = 0 ∧
      get_error_code (init_module g) = 0 ∧
      (init_module g).error_message.1 = List.replicate 256 0 ∧
      init_module (init_module g) = init_module g) :=
  ⟨⟨rfl, rfl, rfl, rfl, rfl⟩, ⟨rfl, rfl, rfl, rfl, rfl⟩⟩

/-- C10: after `set_error(message, code)`, for a message of any length and any
prior state, the error code is `code`; the stored string is the first
`min(length, 255)` bytes of the message, so at most 255 bytes long; and the
array consists of that string followed by NUL bytes only, so it is terminated
and keeps nothing of an earlier, longer message. -/
theorem set_error_stores_bounded_message (g : SafeState) (message : List Byte) (code : Int) :
    get_error_code (set_error g message code) = code ∧
    get_error_message (set_error g message code) = (cstr message).take 255 ∧
    (get_error_message (set_error g message code)).length = min (strlen message) 255 ∧
    (set_error g message code).error_message.1 =
      (cstr message).take 255 ++ List.replicate (256 - min (strlen message) 255) 0 := by
  refine ⟨rfl, get_error_message_set_error g message code, ?_, ?_⟩
  · rw [get_error_message_set_error, List.length_take, Nat.min_comm]
    rfl
  · rw [set_error_message, List.length_take, Nat.min_comm]
    rfl

/-! ## Claims on `initiate_download` -/

/-- C8, as the code has it: called with a null or empty URL, `initiate_download`
starts no transfer and records error code 12 with its message, and it does not
reset the result state: data and size stay exactly as they were. -/
theorem initiate_download_rejects_empty_url (h : Host) (url : Option (List Byte)) (now : Int)
    (hurl : url = none ∨ ∃ u, url = some u ∧ strlen u = 0) :
    (initiate_download h url now).fetches = h.fetches ∧
    get_error_code (initiate_download h url now).g_state = 12 ∧
    get_error_message (initiate_download h url now).g_state = cbytes "URL inválida" ∧
    get_decompressed_data (initiate_download h url now).g_state
      = get_decompressed_data h.g_state ∧
    get_decompressed_size (initiate_download h url now).g_state
      = get_decompressed_size h.g_state := by
  have hmsg : get_error_message (set_error h.g_state (cbytes "URL inválida") 12)
      = cbytes "URL inválida" := by
    rw [get_error_message_set_error]
    decide
  rcases hurl with rfl | ⟨u, rfl, hu⟩
  · exact ⟨rfl, rfl, hmsg, rfl, rfl⟩
  · have e : initiate_download h (some u) now = initiate_download h none now := by
      simp only [initiate_download, hu, if_true]
    rw [e]
    exact ⟨rfl, rfl, hmsg, rfl, rfl⟩

/-- Witness for C8: the empty URL on a host that still holds a result. -/
theorem initiate_download_rejects_empty_url_witness :
    (initiate_download staleHost (some []) 0).fetches = staleHost.fetches ∧
    get_error_code (initiate_download staleHost (some []) 0).g_state = 12 ∧
    get_error_message (initiate_download staleHost (some []) 0).g_state
      = cbytes "URL inválida" ∧
    get_decompressed_data (initiate_download staleHost (some []) 0).g_state
      = get_decompressed_data staleHost.g_state ∧
    get_decompressed_size (initiate_download staleHost (some []) 0).g_state
      = get_decompressed_size staleHost.g_state :=
  initiate_download_rejects_empty_url staleHost (some []) 0 (Or.inr ⟨[], rfl, rfl⟩)

/-- C8 fails as stated: after an earlier result of three bytes, a call with the
empty URL (and likewise with a null URL) leaves the data pointer non-null and
the size 3. -/
theorem initiate_download_empty_url_keeps_stale_result :
    get_decompressed_data (initiate_download staleHost (some []) 0).g_state = some [1, 2, 3] ∧
    get_decompressed_size (initiate_download staleHost (some []) 0).g_state = 3 ∧
    get_decompressed_data (initiate_download staleHost none 0).g_state = some [1, 2, 3] ∧
    get_decompressed_size (initiate_download staleHost none 0).g_state = 3 :=
  ⟨rfl, rfl, rfl, rfl⟩

/-! ## The decode loop -/

theorem loopBody_again_inv {σ : Type} (codec : Codec σ) (alloc : Allocator) (input : List Byte)
    (r r2 : Run σ) (h : loopBody codec alloc input r = LoopStep.again r2) :
    (callDecoder codec input r).1 = BrotliDecoderResult.NEEDS_MORE_OUTPUT ∧
    mulSz r.buffer_size 2 ≤ MAX_BUFFER_SIZE ∧
    ∃ new_buffer,
      realloc alloc r.requests.length (callDecoder codec input r).2.buffer
        (mulSz r.buffer_size 2) = some new_buffer ∧
      r2 = { (callDecoder codec input r).2 with
              buffer := new_buffer
              next_out := subSz r.buffer_size (callDecoder codec input r).2.available_out
              available_out := subSz (mulSz r.buffer_size 2)
                (subSz r.buffer_size (callDecoder codec input r).2.available_out)
              buffer_size := mulSz r.buffer_size 2
              requests := r.requests ++ [mulSz r.buffer_size 2] } := by
  unfold loopBody at h
  have e1 : (callDecoder codec input r).2.buffer_size = r.buffer_size := rfl
  have e2 : (callDecoder codec input r).2.requests = r.requests := rfl
  simp only [e1, e2] at h
  cases hres : (callDecoder codec input r).1 <;> rw [hres] at h <;> simp only at h
  · cases h
  · cases h
  · cases h
  · split at h
    · cases h
    · rename_i hle
      cases hre : realloc alloc r.requests.length (callDecoder codec input r).2.buffer
          (mulSz r.buffer_size 2) <;> rw [hre] at h <;> simp only at h
      · cases h
      · injection h with h
        exact ⟨rfl, Nat.le_of_not_lt hle, _, rfl, h.symm⟩

theorem loopBody_leave_inv {σ : Type} (codec : Codec σ) (alloc : Allocator) (input : List Byte)
    (r r2 : Run σ) (res : BrotliDecoderResult)
    (h : loopBody codec alloc input r = LoopStep.leave res r2) :
    res = (callDecoder codec input r).1 ∧
    ((res = BrotliDecoderResult.NEEDS_MORE_OUTPUT ∧ MAX_BUFFER_SIZE < mulSz r.buffer_size 2 ∧
        r2 = { (callDecoder codec input r).2 with
                g := set_error r.g (cbytes "Límite máximo de descompresión excedido") 5 }) ∨
     (res = BrotliDecoderResult.NEEDS_MORE_OUTPUT ∧ mulSz r.buffer_size 2 ≤ MAX_BUFFER_SIZE ∧
        realloc alloc r.requests.length (callDecoder codec input r).2.buffer
          (mulSz r.buffer_size 2) = none ∧
        r2 = { (callDecoder codec input r).2 with
                g := set_error r.g
                  (cbytes "Fallo al redimensionar el búfer de descompresión") 6
                requests := r.requests ++ [mulSz r.buffer_size 2] }) ∨
     (res = BrotliDecoderResult.ERROR ∧
        r2 = { (callDecoder codec input r).2 with
                g := set_error r.g (cbytes "Error durante la descompresión Brotli") 7 }) ∨
     ((res = BrotliDecoderResult.SUCCESS ∨ res = BrotliDecoderResult.NEEDS_MORE_INPUT) ∧
        r2 = (callDecoder codec input r).2)) := by
  unfold loopBody at h
  have e1 : (callDecoder codec input r).2.buffer_size = r.buffer_size := rfl
  have e2 : (callDecoder codec input r).2.requests = r.requests := rfl
  have e3 : (callDecoder codec input r).2.g = r.g := rfl
  simp only [e1, e2, e3] at h
  cases hres : (callDecoder codec input r).1 <;> rw [hres] at h <;> simp only at h
  · injection h with h1 h2
    exact ⟨h1.symm, Or.inr (Or.inr (Or.inl ⟨h1.symm, h2.symm⟩))⟩
  · injection h with h1 h2
    exact ⟨h1.symm, Or.inr (Or.inr (Or.inr ⟨Or.inl h1.symm, h2.symm⟩))⟩
  · injection h with h1 h2
    exact ⟨h1.symm, Or.inr (Or.inr (Or.inr ⟨Or.inr h1.symm, h2.symm⟩))⟩
  · split at h
    · rename_i hgt
      injection h with h1 h2
      exact ⟨h1.symm, Or.inl ⟨h1.symm, hgt, h2.symm⟩⟩
    · rename_i hle
      cases hre : realloc alloc r.requests.length (callDecoder codec input r).2.buffer
          (mulSz r.buffer_size 2) <;> rw [hre] at h <;> simp only at h
      · injection h with h1 h2
        exact ⟨h1.symm, Or.inr (Or.inl ⟨h1.symm, Nat.le_of_not_lt hle, rfl, h2.symm⟩)⟩
      · cases h

theorem decodeLoop_rule {σ : Type} (codec : Codec σ) (alloc : Allocator) (input : List Byte)
    (P : Run σ → Prop) (Q : BrotliDecoderResult → Run σ → Prop)
    (hagain : ∀ r r2, P r → loopBody codec alloc input r = LoopStep.again r2 → P r2)
    (hleave : ∀ r res r2, P r → loopBody codec alloc input r = LoopStep.leave res r2 →
      Q res r2) :
    ∀ (fuel : Nat) (r : Run σ) (res : BrotliDecoderResult) (r2 : Run σ), P r →
      decodeLoop codec alloc input fuel r = some (res, r2) → Q res r2 := by
  intro fuel
  induction fuel with
  | zero => intro r res r2 _ h; simp [decodeLoop] at h
  | succ n ih =>
    intro r res r2 hP h
    unfold decodeLoop at h
    cases hb : loopBody codec alloc input r with
    | again r3 =>
      rw [hb] at h
      exact ih r3 res r2 (hagain r r3 hP hb) h
    | leave res3 r3 =>
      rw [hb] at h
      simp only [Option.some.injEq, Prod.mk.injEq] at h
      obtain ⟨rfl, rfl⟩ := h
      exact hleave r _ _ hP hb


/-! ## Size arithmetic -/

theorem MAX_BUFFER_SIZE_eq : MAX_BUFFER_SIZE = 209715200 := rfl

theorem SIZE_MOD_eq : SIZE_MOD = 4294967296 := rfl

theorem subSz_of_le (a b : Nat) (hb : b ≤ a) (ha : a < SIZE_MOD) : subSz a b = a - b := by
  unfold subSz
  rw [SIZE_MOD_eq] at *
  omega

theorem subSz_self (a : Nat) : subSz a a = 0 := by
  unfold subSz
  rw [SIZE_MOD_eq]
  omega

theorem mulSz_two (a : Nat) (ha : a ≤ MAX_BUFFER_SIZE) : mulSz a 2 = 2 * a := by
  unfold mulSz
  rw [SIZE_MOD_eq]
  rw [MAX_BUFFER_SIZE_eq] at ha
  omega

theorem mulSz_lt (a b : Nat) : mulSz a b < SIZE_MOD := by
  unfold mulSz
  exact Nat.mod_lt _ (by rw [SIZE_MOD_eq]; decide)

/-! ## Termination of the decode loop -/

theorem decodeLoop_terminates {σ : Type} (codec : Codec σ) (alloc : Allocator)
    (input : List Byte) :
    ∀ (fuel : Nat) (r : Run σ), 0 < r.buffer_size → r.buffer_size ≤ MAX_BUFFER_SIZE →
      MAX_BUFFER_SIZE < r.buffer_size * 2 ^ fuel →
      ∃ res r2, decodeLoop codec alloc input fuel r = some (res, r2) := by
  intro fuel
  induction fuel with
  | zero =>
    intro r _ h2 h3
    simp only [pow_zero, mul_one] at h3
    omega
  | succ n ih =>
    intro r h1 h2 h3
    unfold decodeLoop
    cases hb : loopBody codec alloc input r with
    | again r3 =>
      obtain ⟨_, hle, nb, _, rfl⟩ := loopBody_again_inv codec alloc input r r3 hb
      have hm := mulSz_two r.buffer_size h2
      apply ih
      · show 0 < mulSz r.buffer_size 2
        omega
      · exact hle
      · show MAX_BUFFER_SIZE < mulSz r.buffer_size 2 * 2 ^ n
        rw [hm]
        rw [pow_succ] at h3
        calc MAX_BUFFER_SIZE < r.buffer_size * (2 ^ n * 2) := h3
          _ = 2 * r.buffer_size * 2 ^ n := by ring
    | leave res r3 => exact ⟨res, r3, rfl⟩

theorem decodeLoop_fuel_mono {σ : Type} (codec : Codec σ) (alloc : Allocator)
    (input : List Byte) :
    ∀ (fuel k : Nat) (r : Run σ) (x : BrotliDecoderResult × Run σ),
      decodeLoop codec alloc input fuel r = some x →
      decodeLoop codec alloc input (fuel + k) r = some x := by
  intro fuel
  induction fuel with
  | zero => intro k r x h; simp [decodeLoop] at h
  | succ n ih =>
    intro k r x h
    rw [Nat.add_right_comm]
    unfold decodeLoop at h ⊢
    cases hb : loopBody codec alloc input r with
    | again r3 =>
      rw [hb] at h
      exact ih k r3 x h
    | leave res r3 =>
      rw [hb] at h
      exact h


/-! ## The buffer invariant -/

theorem writeAt_length (buf : List Byte) (pos : Nat) (w : List Byte)
    (h : pos + w.length ≤ buf.length) : (writeAt buf pos w).length = buf.length := by
  unfold writeAt
  simp only [List.length_take, List.length_append, List.length_drop]
  omega

theorem writeAt_take (buf : List Byte) (pos : Nat) (w : List Byte)
    (h : pos + w.length ≤ buf.length) :
    (writeAt buf pos w).take (pos + w.length) = buf.take pos ++ w := by
  unfold writeAt
  have h1 : (buf.take pos ++ w).length = pos + w.length := by
    simp only [List.length_append, List.length_take]
    omega
  rw [List.take_take, Nat.min_eq_left h, ← h1, List.take_left]

theorem callDecoder_sound {σ : Type} (codec : Codec σ) (input : List Byte) (r : Run σ)
    (hw : codec.WellBehaved) (hr : r.Sound) : (callDecoder codec input r).2.Sound := by
  obtain ⟨h1, h2, h3, h4⟩ := hr
  have hlen := hw r.state (input.drop r.next_in) r.available_in r.available_out
  unfold Run.Sound callDecoder
  simp only
  generalize (codec.BrotliDecoderDecompressStream r.state (input.drop r.next_in)
    r.available_in r.available_out) = step at hlen ⊢
  have hfit : r.next_out + step.written.length ≤ r.buffer.length := by omega
  have hsub : subSz r.available_out step.written.length
      = r.available_out - step.written.length :=
    subSz_of_le _ _ hlen (by rw [SIZE_MOD_eq]; rw [MAX_BUFFER_SIZE_eq] at h2; omega)
  refine ⟨?_, h2, ?_, ?_⟩
  · show (writeAt r.buffer r.next_out step.written).length = r.buffer_size
    rw [writeAt_length _ _ _ hfit, h1]
  · show r.next_out + step.written.length + subSz r.available_out step.written.length
      = r.buffer_size
    rw [hsub]
    omega
  · show (writeAt r.buffer r.next_out step.written).take (r.next_out + step.written.length)
      = r.produced ++ step.written
    rw [writeAt_take _ _ _ hfit, h4]

theorem loopBody_again_sound {σ : Type} (codec : Codec σ) (alloc : Allocator)
    (input : List Byte) (hw : codec.WellBehaved) (r r2 : Run σ) (hr : r.Sound)
    (h : loopBody codec alloc input r = LoopStep.again r2) : r2.Sound := by
  obtain ⟨_, hle, nb, hre, rfl⟩ := loopBody_again_inv codec alloc input r r2 h
  have hbs := hr.2.1
  obtain ⟨h1, h2, h3, h4⟩ := callDecoder_sound codec input r hw hr
  have e1 : (callDecoder codec input r).2.buffer_size = r.buffer_size := rfl
  rw [e1] at h1 h2 h3
  have hm := mulSz_two r.buffer_size hbs
  have hused : subSz r.buffer_size (callDecoder codec input r).2.available_out
      = (callDecoder codec input r).2.next_out := by
    rw [subSz_of_le _ _ (by omega) (by rw [SIZE_MOD_eq]; rw [MAX_BUFFER_SIZE_eq] at hbs; omega)]
    omega
  have havail : subSz (mulSz r.buffer_size 2) (callDecoder codec input r).2.next_out
      = 2 * r.buffer_size - (callDecoder codec input r).2.next_out := by
    rw [hm, subSz_of_le _ _ (by omega)
      (by rw [SIZE_MOD_eq]; rw [MAX_BUFFER_SIZE_eq] at hbs; omega)]
  unfold realloc at hre
  split at hre
  · injection hre with hre
    subst hre
    refine ⟨?_, hle, ?_, ?_⟩
    · show (List.take (mulSz r.buffer_size 2) (callDecoder codec input r).2.buffer ++ _).length
        = mulSz r.buffer_size 2
      simp only [List.length_append, List.length_take, List.length_map, List.length_range]
      omega
    · show subSz r.buffer_size (callDecoder codec input r).2.available_out
        + subSz (mulSz r.buffer_size 2)
            (subSz r.buffer_size (callDecoder codec input r).2.available_out)
        = mulSz r.buffer_size 2
      rw [hused, havail, hm]
      omega
    · show List.take (subSz r.buffer_size (callDecoder codec input r).2.available_out)
        (List.take (mulSz r.buffer_size 2) (callDecoder codec input r).2.buffer ++ _)
        = (callDecoder codec input r).2.produced
      rw [hused, List.take_of_length_le (by omega : (callDecoder codec input r).2.buffer.length
        ≤ mulSz r.buffer_size 2), List.take_append_of_le_length (by omega), h4]
  · cases hre

theorem loopBody_leave_sound {σ : Type} (codec : Codec σ) (alloc : Allocator)
    (input : List Byte) (hw : codec.WellBehaved) (r r2 : Run σ) (res : BrotliDecoderResult)
    (hr : r.Sound) (h : loopBody codec alloc input r = LoopStep.leave res r2) : r2.Sound := by
  have hs := callDecoder_sound codec input r hw hr
  obtain ⟨_, h5 | h6 | h7 | h0⟩ := loopBody_leave_inv codec alloc input r r2 res h
  · obtain ⟨_, _, rfl⟩ := h5; exact hs
  · obtain ⟨_, _, _, rfl⟩ := h6; exact hs
  · obtain ⟨_, rfl⟩ := h7; exact hs
  · obtain ⟨_, rfl⟩ := h0; exact hs

theorem decodeLoop_sound {σ : Type} (codec : Codec σ) (alloc : Allocator) (input : List Byte)
    (hw : codec.WellBehaved) (fuel : Nat) (r r2 : Run σ) (res : BrotliDecoderResult)
    (hr : r.Sound) (h : decodeLoop codec alloc input fuel r = some (res, r2)) : r2.Sound :=
  decodeLoop_rule codec alloc input Run.Sound (fun _ r3 => r3.Sound)
    (fun r r3 hP hb => loopBody_again_sound codec alloc input hw r r3 hP hb)
    (fun r res3 r3 hP hb => loopBody_leave_sound codec alloc input hw r r3 res3 hP hb)
    fuel r res r2 hr h


/-! ## What the loop does to `g_state` -/

theorem decodeLoop_g {σ : Type} (codec : Codec σ) (alloc : Allocator) (input : List Byte)
    (fuel : Nat) (r r2 : Run σ) (res : BrotliDecoderResult)
    (h : decodeLoop codec alloc input fuel r = some (res, r2)) :
    (res = BrotliDecoderResult.SUCCESS ∨ res = BrotliDecoderResult.NEEDS_MORE_INPUT →
      r2.g = r.g) ∧
    (res = BrotliDecoderResult.ERROR →
      r2.g = set_error r.g (cbytes "Error durante la descompresión Brotli") 7) ∧
    (res = BrotliDecoderResult.NEEDS_MORE_OUTPUT →
      r2.g = set_error r.g (cbytes "Límite máximo de descompresión excedido") 5 ∨
      r2.g = set_error r.g (cbytes "Fallo al redimensionar el búfer de descompresión") 6) := by
  refine decodeLoop_rule codec alloc input (fun r3 => r3.g = r.g)
    (fun res3 r3 =>
      (res3 = BrotliDecoderResult.SUCCESS ∨ res3 = BrotliDecoderResult.NEEDS_MORE_INPUT →
        r3.g = r.g) ∧
      (res3 = BrotliDecoderResult.ERROR →
        r3.g = set_error r.g (cbytes "Error durante la descompresión Brotli") 7) ∧
      (res3 = BrotliDecoderResult.NEEDS_MORE_OUTPUT →
        r3.g = set_error r.g (cbytes "Límite máximo de descompresión excedido") 5 ∨
        r3.g = set_error r.g (cbytes "Fallo al redimensionar el búfer de descompresión") 6))
    ?_ ?_ fuel r res r2 rfl h
  · intro r3 r4 hP hb
    obtain ⟨_, _, nb, _, rfl⟩ := loopBody_again_inv codec alloc input r3 r4 hb
    exact hP
  · intro r3 res3 r4 hP hb
    simp only at hP
    obtain ⟨_, h5 | h6 | h7 | h0⟩ := loopBody_leave_inv codec alloc input r3 r4 res3 hb
    · obtain ⟨rfl, _, rfl⟩ := h5
      rw [hP]
      exact ⟨fun h => (by rcases h with h | h <;> cases h), fun h => (by cases h),
        fun _ => Or.inl rfl⟩
    · obtain ⟨rfl, _, _, rfl⟩ := h6
      rw [hP]
      exact ⟨fun h => (by rcases h with h | h <;> cases h), fun h => (by cases h),
        fun _ => Or.inr rfl⟩
    · obtain ⟨rfl, rfl⟩ := h7
      rw [hP]
      exact ⟨fun h => (by rcases h with h | h <;> cases h), fun _ => rfl, fun h => (by cases h)⟩
    · obtain ⟨hres, rfl⟩ := h0
      refine ⟨fun _ => hP, fun h => ?_, fun h => ?_⟩
      · rcases hres with h1 | h1 <;> rw [h1] at h <;> cases h
      · rcases hres with h1 | h1 <;> rw [h1] at h <;> cases h

theorem decodeLoop_calls {σ : Type} (codec : Codec σ) (alloc : Allocator) (input : List Byte)
    (fuel : Nat) (r r2 : Run σ) (res : BrotliDecoderResult)
    (h : decodeLoop codec alloc input fuel r = some (res, r2)) : r.calls + 1 ≤ r2.calls := by
  refine decodeLoop_rule codec alloc input (fun r3 => r.calls ≤ r3.calls)
    (fun _ r3 => r.calls + 1 ≤ r3.calls) ?_ ?_ fuel r res r2 (Nat.le_refl _) h
  · intro r3 r4 hP hb
    obtain ⟨_, _, nb, _, rfl⟩ := loopBody_again_inv codec alloc input r3 r4 hb
    exact Nat.le_succ_of_le hP
  · intro r3 res3 r4 hP hb
    obtain ⟨_, h5 | h6 | h7 | h0⟩ := loopBody_leave_inv codec alloc input r3 r4 res3 hb
    · obtain ⟨_, _, rfl⟩ := h5; exact Nat.succ_le_succ hP
    · obtain ⟨_, _, _, rfl⟩ := h6; exact Nat.succ_le_succ hP
    · obtain ⟨_, rfl⟩ := h7; exact Nat.succ_le_succ hP
    · obtain ⟨_, rfl⟩ := h0; exact Nat.succ_le_succ hP

/-! ## The paths through `safe_decompress_brotli` -/

theorem safe_decompress_brotli_inv {σ : Type} (codec : Codec σ) (alloc : Allocator)
    (fuel : Nat) (g : SafeState) (compressed_data : Option (List Byte))
    (compressed_size : Nat) (o : Outcome)
    (h : safe_decompress_brotli codec alloc fuel g compressed_data compressed_size = some o) :
    ((compressed_data = none ∨ compressed_size = 0) ∧
      o = ⟨0, set_error g (cbytes "Datos comprimidos inválidos") 1, [], 0, [], none⟩) ∨
    (compressed_data ≠ none ∧ 50 * 1024 * 1024 < compressed_size ∧
      o = ⟨0, set_error g
        (cbytes "Archivo comprimido demasiado grande para descomprimir de forma segura") 2,
        [], 0, [], none⟩) ∨
    (compressed_data ≠ none ∧ 0 < compressed_size ∧ compressed_size ≤ 50 * 1024 * 1024 ∧
      malloc alloc 0 (initialBufferSize compressed_size) = none ∧
      o = ⟨0, set_error g (cbytes "Fallo de asignación de memoria") 3,
        [initialBufferSize compressed_size], 0, [], none⟩) ∨
    (compressed_data ≠ none ∧ 0 < compressed_size ∧ compressed_size ≤ 50 * 1024 * 1024 ∧
      malloc alloc 0 (initialBufferSize compressed_size) ≠ none ∧
      codec.BrotliDecoderCreateInstance = none ∧
      o = ⟨0, set_error g (cbytes "No se pudo crear el estado del decodificador Brotli") 4,
        [initialBufferSize compressed_size], 0, [], none⟩) ∨
    (∃ input buffer state res r,
      compressed_data = some input ∧ 0 < compressed_size ∧
      compressed_size ≤ 50 * 1024 * 1024 ∧
      malloc alloc 0 (initialBufferSize compressed_size) = some buffer ∧
      codec.BrotliDecoderCreateInstance = some state ∧
      decodeLoop codec alloc input fuel
        (initialRun g state compressed_size buffer (initialBufferSize compressed_size))
        = some (res, r) ∧
      o = publish alloc res r) := by
  unfold safe_decompress_brotli at h
  cases compressed_data with
  | none =>
    simp only [Option.some.injEq] at h
    exact Or.inl ⟨Or.inl rfl, h.symm⟩
  | some input =>
    simp only at h
    split at h
    · rename_i h0
      simp only [Option.some.injEq] at h
      exact Or.inl ⟨Or.inr h0, h.symm⟩
    · rename_i h0
      split at h
      · rename_i h1
        simp only [Option.some.injEq] at h
        exact Or.inr (Or.inl ⟨by simp, h1, h.symm⟩)
      · rename_i h1
        have hpos : 0 < compressed_size := Nat.pos_of_ne_zero h0
        have hle : compressed_size ≤ 50 * 1024 * 1024 := Nat.le_of_not_lt h1
        cases hm : malloc alloc 0 (initialBufferSize compressed_size) with
        | none =>
          rw [hm] at h
          simp only [Option.some.injEq] at h
          exact Or.inr (Or.inr (Or.inl ⟨by simp, hpos, hle, rfl, h.symm⟩))
        | some buffer =>
          rw [hm] at h
          simp only at h
          cases hc : codec.BrotliDecoderCreateInstance with
          | none =>
            rw [hc] at h
            simp only [Option.some.injEq] at h
            exact Or.inr (Or.inr (Or.inr (Or.inl ⟨by simp, hpos, hle, by simp, rfl, h.symm⟩)))
          | some state =>
            rw [hc] at h
            simp only at h
            cases hl : decodeLoop codec alloc input fuel
                (initialRun g state compressed_size buffer
                  (initialBufferSize compressed_size)) with
            | none => rw [hl] at h; cases h
            | some x =>
              obtain ⟨res, r⟩ := x
              rw [hl] at h
              simp only [Option.some.injEq] at h
              exact Or.inr (Or.inr (Or.inr (Or.inr
                ⟨input, buffer, state, res, r, rfl, hpos, hle, rfl, rfl, hl, h.symm⟩)))


theorem malloc_length (a : Allocator) (k n : Nat) (b : List Byte)
    (h : malloc a k n = some b) : b.length = n := by
  unfold malloc at h
  split at h
  · injection h with h
    rw [← h, List.length_map, List.length_range]
  · cases h

theorem initialBufferSize_le (n : Nat) : initialBufferSize n ≤ MAX_BUFFER_SIZE := by
  unfold initialBufferSize
  simp only
  split
  · exact Nat.le_refl _
  · omega

theorem initialRun_sound {σ : Type} (alloc : Allocator) (g : SafeState) (state : σ)
    (n : Nat) (buffer : List Byte)
    (hm : malloc alloc 0 (initialBufferSize n) = some buffer) :
    (initialRun g state n buffer (initialBufferSize n)).Sound :=
  ⟨malloc_length alloc 0 _ buffer hm, initialBufferSize_le n, Nat.zero_add _, rfl⟩

theorem publish_cases {σ : Type} (alloc : Allocator) (res : BrotliDecoderResult) (r : Run σ) :
    (res ≠ BrotliDecoderResult.SUCCESS ∧
      publish alloc res r = ⟨0, r.g, r.requests, r.calls, r.produced, some res⟩) ∨
    (res = BrotliDecoderResult.SUCCESS ∧ subSz r.buffer_size r.available_out = 0 ∧
      publish alloc res r = ⟨0, set_error r.g (cbytes "Datos descomprimidos vacíos") 8,
        r.requests, r.calls, r.produced, some res⟩) ∨
    (res = BrotliDecoderResult.SUCCESS ∧ subSz r.buffer_size r.available_out ≠ 0 ∧
      malloc alloc r.requests.length (subSz r.buffer_size r.available_out) = none ∧
      publish alloc res r = ⟨0, set_error (safe_cleanup r.g)
          (cbytes "Fallo al asignar memoria para datos descomprimidos") 9,
        r.requests ++ [subSz r.buffer_size r.available_out], r.calls, r.produced,
        some res⟩) ∨
    (res = BrotliDecoderResult.SUCCESS ∧ subSz r.buffer_size r.available_out ≠ 0 ∧
      ∃ fresh, malloc alloc r.requests.length (subSz r.buffer_size r.available_out)
          = some fresh ∧
        publish alloc res r = ⟨1,
          { safe_cleanup r.g with
            data := some (memcpy fresh r.buffer (subSz r.buffer_size r.available_out))
            size := subSz r.buffer_size r.available_out },
          r.requests ++ [subSz r.buffer_size r.available_out], r.calls, r.produced,
          some res⟩) := by
  by_cases hres : res = BrotliDecoderResult.SUCCESS
  · by_cases hz : subSz r.buffer_size r.available_out = 0
    · refine Or.inr (Or.inl ⟨hres, hz, ?_⟩)
      unfold publish
      rw [if_pos hres]
      simp only [hz, if_true]
    · cases hm : malloc alloc r.requests.length (subSz r.buffer_size r.available_out) with
      | none =>
        refine Or.inr (Or.inr (Or.inl ⟨hres, hz, rfl, ?_⟩))
        unfold publish
        rw [if_pos hres]
        simp only [hz, if_false, hm]
      | some fresh =>
        refine Or.inr (Or.inr (Or.inr ⟨hres, hz, fresh, rfl, ?_⟩))
        unfold publish
        rw [if_pos hres]
        simp only [hz, if_false, hm]
  · refine Or.inl ⟨hres, ?_⟩
    unfold publish
    rw [if_neg hres]


theorem decodeLoop_g_data {σ : Type} (codec : Codec σ) (alloc : Allocator)
    (input : List Byte) (fuel : Nat) (r r2 : Run σ) (res : BrotliDecoderResult)
    (h : decodeLoop codec alloc input fuel r = some (res, r2)) :
    r2.g.data = r.g.data ∧ r2.g.size = r.g.size := by
  obtain ⟨h1, h2, h3⟩ := decodeLoop_g codec alloc input fuel r r2 res h
  cases res with
  | ERROR => rw [h2 rfl]; exact ⟨rfl, rfl⟩
  | SUCCESS => rw [h1 (Or.inl rfl)]; exact ⟨rfl, rfl⟩
  | NEEDS_MORE_INPUT => rw [h1 (Or.inr rfl)]; exact ⟨rfl, rfl⟩
  | NEEDS_MORE_OUTPUT => rcases h3 rfl with e | e <;> rw [e] <;> exact ⟨rfl, rfl⟩

theorem streamOf_wellBehaved (out : List Byte) : (streamOf out).WellBehaved := by
  intro s inp ain aout
  show (if aout < (out.drop s).length then _ else _ : StreamStep Nat).written.length ≤ aout
  split
  · show ((out.drop s).take aout).length ≤ aout
    rw [List.length_take]
    exact Nat.min_le_left _ _
  · show (out.drop s).length ≤ aout
    omega

/-! ## Claims on `safe_decompress_brotli` -/

/-- C1: whenever `safe_decompress_brotli` returns 1, whatever the prior result
state, the decoder reported `SUCCESS`, `get_decompressed_size()` is the exact
number of bytes the decoder produced and `get_decompressed_data()` holds
exactly those bytes in order; nothing of the previous result is left. -/
theorem decompress_success_publishes_output {σ : Type} (codec : Codec σ) (alloc : Allocator)
    (fuel : Nat) (g : SafeState) (compressed_data : Option (List Byte))
    (compressed_size : Nat) (o : Outcome) (hw : codec.WellBehaved)
    (hrun : safe_decompress_brotli codec alloc fuel g compressed_data compressed_size = some o)
    (hret : o.ret = 1) :
    o.result = some BrotliDecoderResult.SUCCESS ∧
    get_decompressed_size o.g = o.produced.length ∧
    get_decompressed_data o.g = some o.produced := by
  rcases safe_decompress_brotli_inv codec alloc fuel g compressed_data compressed_size o hrun
    with ⟨_, rfl⟩ | ⟨_, _, rfl⟩ | ⟨_, _, _, _, rfl⟩ | ⟨_, _, _, _, _, rfl⟩ |
      ⟨input, buffer, state, res, r, _, _, _, hm, _, hl, rfl⟩
  · cases hret
  · cases hret
  · cases hret
  · cases hret
  · obtain ⟨h1, h2, h3, h4⟩ := decodeLoop_sound codec alloc input hw fuel _ r res
      (initialRun_sound alloc g state compressed_size buffer hm) hl
    have hused : subSz r.buffer_size r.available_out = r.next_out := by
      rw [subSz_of_le _ _ (by omega)
        (by rw [SIZE_MOD_eq]; rw [MAX_BUFFER_SIZE_eq] at h2; omega)]
      omega
    have hlen : r.produced.length = r.next_out := by
      rw [← h4, List.length_take]
      omega
    rcases publish_cases alloc res r with ⟨_, e⟩ | ⟨_, _, e⟩ | ⟨_, _, _, e⟩ |
      ⟨hres, _, fresh, hf, e⟩
    · rw [e] at hret; cases hret
    · rw [e] at hret; cases hret
    · rw [e] at hret; cases hret
    · rw [e]
      have hfl := malloc_length alloc _ _ fresh hf
      refine ⟨by rw [hres], ?_, ?_⟩
      · show subSz r.buffer_size r.available_out = r.produced.length
        rw [hused, hlen]
      · show some (memcpy fresh r.buffer (subSz r.buffer_size r.available_out))
          = some r.produced
        unfold memcpy
        rw [List.drop_of_length_le (Nat.le_of_eq hfl), List.append_nil, hused, h4]

set_option maxRecDepth 100000 in
/-- Witness for C1: a one-byte input whose stream decodes to 7, 8, 9, run on a
state that still holds an earlier result. -/
theorem decompress_success_publishes_output_witness :
    safe_decompress_brotli (streamOf [7, 8, 9]) plentifulHeap 25 staleHost.g_state
      (some [27]) 1 = some threeByteOutcome ∧
    threeByteOutcome.ret = 1 ∧
    threeByteOutcome.result = some BrotliDecoderResult.SUCCESS ∧
    get_decompressed_size threeByteOutcome.g = threeByteOutcome.produced.length ∧
    get_decompressed_data threeByteOutcome.g = some threeByteOutcome.produced :=
  ⟨by decide, rfl,
    decompress_success_publishes_output (streamOf [7, 8, 9]) plentifulHeap 25
      staleHost.g_state (some [27]) 1 threeByteOutcome (streamOf_wellBehaved _)
      (by decide) rfl⟩

/-- C2, as the code has it: a failing call never stores data.  After a return
of 0 the data pointer and size are either those of the prior state or null and
0; so when the prior state holds no result (data null, size 0, as after
`safe_cleanup`), `get_decompressed_data()` is null and
`get_decompressed_size()` is 0. -/
theorem decompress_failure_exposes_no_new_data {σ : Type} (codec : Codec σ)
    (alloc : Allocator) (fuel : Nat) (g : SafeState) (compressed_data : Option (List Byte))
    (compressed_size : Nat) (o : Outcome)
    (hrun : safe_decompress_brotli codec alloc fuel g compressed_data compressed_size = some o)
    (hret : o.ret = 0) :
    ((get_decompressed_data o.g = get_decompressed_data g ∧
        get_decompressed_size o.g = get_decompressed_size g) ∨
      (get_decompressed_data o.g = none ∧ get_decompressed_size o.g = 0)) ∧
    (get_decompressed_data g = none → get_decompressed_size g = 0 →
      get_decompressed_data o.g = none ∧ get_decompressed_size o.g = 0) := by
  have key : (get_decompressed_data o.g = get_decompressed_data g ∧
        get_decompressed_size o.g = get_decompressed_size g) ∨
      (get_decompressed_data o.g = none ∧ get_decompressed_size o.g = 0) := by
    rcases safe_decompress_brotli_inv codec alloc fuel g compressed_data compressed_size o hrun
      with ⟨_, rfl⟩ | ⟨_, _, rfl⟩ | ⟨_, _, _, _, rfl⟩ | ⟨_, _, _, _, _, rfl⟩ |
        ⟨input, buffer, state, res, r, _, _, _, hm, _, hl, rfl⟩
    · exact Or.inl ⟨rfl, rfl⟩
    · exact Or.inl ⟨rfl, rfl⟩
    · exact Or.inl ⟨rfl, rfl⟩
    · exact Or.inl ⟨rfl, rfl⟩
    · obtain ⟨hd, hs⟩ := decodeLoop_g_data codec alloc input fuel _ r res hl
      rcases publish_cases alloc res r with ⟨_, e⟩ | ⟨_, _, e⟩ | ⟨_, _, _, e⟩ |
        ⟨_, _, fresh, _, e⟩
      · rw [e]; exact Or.inl ⟨hd, hs⟩
      · rw [e]; exact Or.inl ⟨hd, hs⟩
      · rw [e]; exact Or.inr ⟨rfl, rfl⟩
      · rw [e] at hret; cases hret
  refine ⟨key, fun h1 h2 => ?_⟩
  rcases key with ⟨e1, e2⟩ | h
  · exact ⟨e1.trans h1, e2.trans h2⟩
  · exact h

set_option maxRecDepth 100000 in
/-- Witness for C2: a corrupt one-byte stream on the initial, empty state. -/
theorem decompress_failure_exposes_no_new_data_witness :
    safe_decompress_brotli corruptStream plentifulHeap 25 g_state_init (some [27]) 1
      = some corruptOutcome ∧
    corruptOutcome.ret = 0 ∧
    get_decompressed_data corruptOutcome.g = none ∧
    get_decompressed_size corruptOutcome.g = 0 :=
  ⟨by decide, rfl,
    (decompress_failure_exposes_no_new_data corruptStream plentifulHeap 25 g_state_init
      (some [27]) 1 corruptOutcome (by decide) rfl).2 rfl rfl⟩

/-- C2 fails as stated: on a state that holds the three bytes of an earlier
result, decompressing a corrupt stream returns 0 and the data pointer is still
non-null with size 3. -/
theorem decompress_failure_keeps_stale_result :
    (safe_decompress_brotli corruptStream plentifulHeap 25 staleHost.g_state (some [27]) 1).map
      (fun o => (o.ret, get_decompressed_data o.g, get_decompressed_size o.g))
      = some (0, some [1, 2, 3], 3) := by
  decide

/-- C3 fails on the code: with a freshly reset state and an accepted one-byte
input on which the decoder reports `NEEDS_MORE_INPUT`, the call returns 0 and
records nothing: the error code is still 0 and the message is empty. -/
theorem needs_more_input_fails_unrecorded :
    (safe_decompress_brotli truncatedStream plentifulHeap 25 (safe_cleanup g_state_init)
      (some [27]) 1).map
      (fun o => (o.ret, get_error_code o.g, get_error_message o.g, o.result))
      = some (0, 0, [], some BrotliDecoderResult.NEEDS_MORE_INPUT) := by
  decide


/-! ## Running `safe_decompress_brotli` forwards -/

theorem safe_decompress_brotli_accepted {σ : Type} (codec : Codec σ) (alloc : Allocator)
    (fuel : Nat) (g : SafeState) (input : List Byte) (n : Nat) (buffer : List Byte)
    (state : σ) (res : BrotliDecoderResult) (r : Run σ)
    (h0 : 0 < n) (h1 : n ≤ 50 * 1024 * 1024)
    (hm : malloc alloc 0 (initialBufferSize n) = some buffer)
    (hc : codec.BrotliDecoderCreateInstance = some state)
    (hl : decodeLoop codec alloc input fuel
      (initialRun g state n buffer (initialBufferSize n)) = some (res, r)) :
    safe_decompress_brotli codec alloc fuel g (some input) n = some (publish alloc res r) := by
  unfold safe_decompress_brotli
  simp only
  rw [if_neg (Nat.pos_iff_ne_zero.mp h0), if_neg (Nat.not_lt.mpr h1)]
  simp only [hm, hc, hl]

theorem initialBufferSize_ge (n : Nat) (h0 : 0 < n) (h1 : n ≤ 50 * 1024 * 1024) :
    10 ≤ initialBufferSize n := by
  have hmod : mulSz n MAX_DECOMPRESSION_RATIO = n * 10 := by
    unfold mulSz MAX_DECOMPRESSION_RATIO
    rw [SIZE_MOD_eq]
    exact Nat.mod_eq_of_lt (by omega)
  unfold initialBufferSize
  rw [hmod, MAX_BUFFER_SIZE_eq]
  simp only
  split <;> omega

theorem decodeLoop_total {σ : Type} (codec : Codec σ) (alloc : Allocator) (input : List Byte)
    (fuel : Nat) (hfuel : 25 ≤ fuel) (r : Run σ) (h1 : 10 ≤ r.buffer_size)
    (h2 : r.buffer_size ≤ MAX_BUFFER_SIZE) :
    ∃ res r2, decodeLoop codec alloc input fuel r = some (res, r2) := by
  apply decodeLoop_terminates codec alloc input fuel r (by omega) h2
  have hp : 2 ^ 25 ≤ 2 ^ fuel := Nat.pow_le_pow_right (by decide) hfuel
  have hq : 10 * 2 ^ 25 ≤ r.buffer_size * 2 ^ fuel := Nat.mul_le_mul h1 hp
  have h3 : MAX_BUFFER_SIZE < 10 * 2 ^ 25 := by decide
  omega

theorem safe_decompress_brotli_total {σ : Type} (codec : Codec σ) (alloc : Allocator)
    (fuel : Nat) (hfuel : 25 ≤ fuel) (g : SafeState) (compressed_data : Option (List Byte))
    (compressed_size : Nat) :
    ∃ o, safe_decompress_brotli codec alloc fuel g compressed_data compressed_size = some o := by
  unfold safe_decompress_brotli
  cases compressed_data with
  | none => exact ⟨_, rfl⟩
  | some input =>
    simp only
    split
    · exact ⟨_, rfl⟩
    · rename_i h0
      split
      · exact ⟨_, rfl⟩
      · rename_i h1
        cases hm : malloc alloc 0 (initialBufferSize compressed_size) with
        | none => exact ⟨_, rfl⟩
        | some buffer =>
          cases hc : codec.BrotliDecoderCreateInstance with
          | none => exact ⟨_, rfl⟩
          | some state =>
            obtain ⟨res, r, hl⟩ := decodeLoop_total codec alloc input fuel hfuel
              (initialRun g state compressed_size buffer (initialBufferSize compressed_size))
              (initialBufferSize_ge compressed_size (Nat.pos_of_ne_zero h0)
                (Nat.le_of_not_lt h1))
              (initialBufferSize_le compressed_size)
            simp only [hl]
            exact ⟨_, rfl⟩

theorem publish_calls {σ : Type} (alloc : Allocator) (res : BrotliDecoderResult) (r : Run σ) :
    (publish alloc res r).calls = r.calls ∧ (publish alloc res r).produced = r.produced ∧
    (publish alloc res r).result = some res := by
  rcases publish_cases alloc res r with
    ⟨_, e⟩ | ⟨_, _, e⟩ | ⟨_, _, _, e⟩ | ⟨_, _, _, _, e⟩ <;>
    rw [e] <;> exact ⟨rfl, rfl, rfl⟩

theorem decodeLoop_requests_head {σ : Type} (codec : Codec σ) (alloc : Allocator)
    (input : List Byte) (fuel : Nat) (r r2 : Run σ) (res : BrotliDecoderResult) (b : Nat)
    (hr : r.requests.head? = some b)
    (h : decodeLoop codec alloc input fuel r = some (res, r2)) :
    r2.requests.head? = some b := by
  have happ : ∀ (l : List Nat) (x : Nat), l.head? = some b → (l ++ [x]).head? = some b := by
    intro l x hl
    cases l with
    | nil => cases hl
    | cons a t => exact hl
  refine decodeLoop_rule codec alloc input (fun r3 => r3.requests.head? = some b)
    (fun _ r3 => r3.requests.head? = some b) ?_ ?_ fuel r res r2 hr h
  · intro r3 r4 hP hb
    obtain ⟨_, _, nb, _, rfl⟩ := loopBody_again_inv codec alloc input r3 r4 hb
    exact happ _ _ hP
  · intro r3 res3 r4 hP hb
    obtain ⟨_, h5 | h6 | h7 | h0⟩ := loopBody_leave_inv codec alloc input r3 r4 res3 hb
    · obtain ⟨_, _, rfl⟩ := h5; exact hP
    · obtain ⟨_, _, _, rfl⟩ := h6; exact happ _ _ hP
    · obtain ⟨_, rfl⟩ := h7; exact hP
    · obtain ⟨_, rfl⟩ := h0; exact hP

theorem publish_requests_head {σ : Type} (alloc : Allocator) (res : BrotliDecoderResult)
    (r : Run σ) (b : Nat) (hr : r.requests.head? = some b) :
    (publish alloc res r).requests.head? = some b := by
  have happ : ∀ (l : List Nat) (x : Nat), l.head? = some b → (l ++ [x]).head? = some b := by
    intro l x hl
    cases l with
    | nil => cases hl
    | cons a t => exact hl
  rcases publish_cases alloc res r with
    ⟨_, e⟩ | ⟨_, _, e⟩ | ⟨_, _, _, e⟩ | ⟨_, _, _, _, e⟩ <;>
    rw [e]
  · exact hr
  · exact hr
  · exact happ _ _ hr
  · exact happ _ _ hr


/-- C4: the size checks of `safe_decompress_brotli` sit exactly at 50 MiB.  A
non-null input of 52428801 bytes or more returns 0 with error code 2 and the
decoder is never called; a null or zero-length input returns 0 with error
code 1, again without a decoder call; a non-null input of exactly 52428800
bytes passes both checks: the call asks the allocator for the initial buffer
(of `MAX_BUFFER_SIZE` bytes) and, when that request and the creation of the
decoder succeed, calls the decoder. -/
theorem input_size_boundary {σ : Type} (codec : Codec σ) (alloc : Allocator) (fuel : Nat)
    (g : SafeState) (compressed_data : Option (List Byte)) (compressed_size : Nat) :
    (52428801 ≤ compressed_size → compressed_data ≠ none →
      ∃ o, safe_decompress_brotli codec alloc fuel g compressed_data compressed_size = some o ∧
        o.ret = 0 ∧ get_error_code o.g = 2 ∧ o.calls = 0 ∧ o.requests = []) ∧
    (compressed_data = none ∨ compressed_size = 0 →
      ∃ o, safe_decompress_brotli codec alloc fuel g compressed_data compressed_size = some o ∧
        o.ret = 0 ∧ get_error_code o.g = 1 ∧ o.calls = 0 ∧ o.requests = []) ∧
    (compressed_size = 52428800 → compressed_data ≠ none → 1 ≤ fuel →
      ∃ o, safe_decompress_brotli codec alloc fuel g compressed_data compressed_size = some o ∧
        o.requests.head? = some MAX_BUFFER_SIZE ∧
        (alloc.grants 0 MAX_BUFFER_SIZE = true → codec.BrotliDecoderCreateInstance ≠ none →
          1 ≤ o.calls)) := by
  refine ⟨?_, ?_, ?_⟩
  · intro hn hd
    cases compressed_data with
    | none => exact absurd rfl hd
    | some input =>
      have e : safe_decompress_brotli codec alloc fuel g (some input) compressed_size
          = some ⟨0, set_error g (cbytes
              "Archivo comprimido demasiado grande para descomprimir de forma segura") 2,
            [], 0, [], none⟩ := by
        unfold safe_decompress_brotli
        simp only
        rw [if_neg (by omega), if_pos (by omega)]
      exact ⟨_, e, rfl, rfl, rfl, rfl⟩
  · intro h
    cases compressed_data with
    | none => exact ⟨_, rfl, rfl, rfl, rfl, rfl⟩
    | some input =>
      rcases h with h | h
      · cases h
      · have e : safe_decompress_brotli codec alloc fuel g (some input) compressed_size
            = some ⟨0, set_error g (cbytes "Datos comprimidos inválidos") 1,
              [], 0, [], none⟩ := by
          unfold safe_decompress_brotli
          simp only
          rw [if_pos h]
        exact ⟨_, e, rfl, rfl, rfl, rfl⟩
  · intro hn hd hfuel
    subst hn
    have hsz : initialBufferSize 52428800 = MAX_BUFFER_SIZE := by decide
    cases compressed_data with
    | none => exact absurd rfl hd
    | some input =>
      unfold safe_decompress_brotli
      simp only
      rw [if_neg (by decide), if_neg (by decide), hsz]
      cases hm : malloc alloc 0 MAX_BUFFER_SIZE with
      | none =>
        refine ⟨_, rfl, rfl, fun hg => ?_⟩
        unfold malloc at hm
        rw [if_pos hg] at hm
        cases hm
      | some buffer =>
        cases hc : codec.BrotliDecoderCreateInstance with
        | none => exact ⟨_, rfl, rfl, fun _ hne => absurd rfl hne⟩
        | some state =>
          obtain ⟨res, r, hl⟩ := decodeLoop_terminates codec alloc input fuel
            (initialRun g state 52428800 buffer MAX_BUFFER_SIZE)
            (by show 0 < MAX_BUFFER_SIZE; decide) (Nat.le_refl _)
            (by
              show MAX_BUFFER_SIZE < MAX_BUFFER_SIZE * 2 ^ fuel
              have hp : 2 ^ 1 ≤ 2 ^ fuel := Nat.pow_le_pow_right (by decide) hfuel
              rw [MAX_BUFFER_SIZE_eq]
              omega)
          simp only [hl]
          refine ⟨_, rfl, ?_, fun _ _ => ?_⟩
          · exact publish_requests_head alloc res r _
              (decodeLoop_requests_head codec alloc input fuel
                (initialRun g state 52428800 buffer MAX_BUFFER_SIZE) r res _ rfl hl)
          · rw [(publish_calls alloc res r).1]
            exact decodeLoop_calls codec alloc input fuel _ r res hl

/-- Witness for C4: one byte over the limit, the null input, and exactly
50 MiB. -/
theorem input_size_boundary_witness :
    (∃ o, safe_decompress_brotli corruptStream plentifulHeap 1 g_state_init
        (some (List.replicate 52428801 0)) 52428801 = some o ∧
      o.ret = 0 ∧ get_error_code o.g = 2 ∧ o.calls = 0 ∧ o.requests = []) ∧
    (∃ o, safe_decompress_brotli corruptStream plentifulHeap 1 g_state_init none 0 = some o ∧
      o.ret = 0 ∧ get_error_code o.g = 1 ∧ o.calls = 0 ∧ o.requests = []) ∧
    (∃ o, safe_decompress_brotli corruptStream plentifulHeap 1 g_state_init
        (some (List.replicate 52428800 0)) 52428800 = some o ∧
      o.requests.head? = some MAX_BUFFER_SIZE ∧ 1 ≤ o.calls) :=
  ⟨(input_size_boundary corruptStream plentifulHeap 1 g_state_init
      (some (List.replicate 52428801 0)) 52428801).1 (Nat.le_refl _) (Option.some_ne_none _),
    (input_size_boundary corruptStream plentifulHeap 1 g_state_init none 0).2.1 (Or.inl rfl),
    match (input_size_boundary corruptStream plentifulHeap 1 g_state_init
      (some (List.replicate 52428800 0)) 52428800).2.2 rfl (Option.some_ne_none _)
      (Nat.le_refl _) with
    | ⟨o, h1, h2, h3⟩ => ⟨o, h1, h2, h3 rfl (Option.some_ne_none _)⟩⟩

/-! ### Empty output -/

theorem subSz_zero (a : Nat) (ha : a < SIZE_MOD) : subSz a 0 = a := by
  rw [subSz_of_le a 0 (Nat.zero_le _) ha, Nat.sub_zero]

theorem decodeLoop_nothing_produced {σ : Type} (codec : Codec σ) (alloc : Allocator)
    (input : List Byte) (fuel : Nat) (r r2 : Run σ) (res : BrotliDecoderResult)
    (hr : r.available_out = r.buffer_size) (hlt : r.buffer_size < SIZE_MOD)
    (h : decodeLoop codec alloc input fuel r = some (res, r2)) :
    r2.produced = [] → subSz r2.buffer_size r2.available_out = 0 := by
  have hcall : ∀ r3 : Run σ, r3.available_out = r3.buffer_size → r3.buffer_size < SIZE_MOD →
      (callDecoder codec input r3).2.produced = [] →
      (callDecoder codec input r3).2.available_out = r3.buffer_size := by
    intro r3 h1 h2 h3
    have h4 : r3.produced ++ (codec.BrotliDecoderDecompressStream r3.state
        (input.drop r3.next_in) r3.available_in r3.available_out).written = [] := h3
    have h5 := (List.append_eq_nil.mp h4).2
    show subSz r3.available_out (codec.BrotliDecoderDecompressStream r3.state
        (input.drop r3.next_in) r3.available_in r3.available_out).written.length = _
    rw [h5, List.length_nil, h1, subSz_zero _ h2]
  refine decodeLoop_rule codec alloc input
    (fun r3 => (r3.produced = [] → r3.available_out = r3.buffer_size) ∧
      r3.buffer_size < SIZE_MOD)
    (fun _ r3 => r3.produced = [] → subSz r3.buffer_size r3.available_out = 0)
    ?_ ?_ fuel r res r2 ⟨fun _ => hr, hlt⟩ h
  · intro r3 r4 hP hb
    obtain ⟨_, _, nb, _, rfl⟩ := loopBody_again_inv codec alloc input r3 r4 hb
    obtain ⟨hP1, hP2⟩ := hP
    have key : (callDecoder codec input r3).2.produced = [] →
        subSz (mulSz r3.buffer_size 2)
          (subSz r3.buffer_size (callDecoder codec input r3).2.available_out)
        = mulSz r3.buffer_size 2 := by
      intro hnil
      have h4 : r3.produced ++ (codec.BrotliDecoderDecompressStream r3.state
          (input.drop r3.next_in) r3.available_in r3.available_out).written = [] := hnil
      rw [hcall r3 (hP1 (List.append_eq_nil.mp h4).1) hP2 hnil, subSz_self,
        subSz_zero _ (mulSz_lt _ _)]
    exact ⟨key, mulSz_lt _ _⟩
  · intro r3 res3 r4 hP hb
    obtain ⟨hP1, hP2⟩ := hP
    have key : (callDecoder codec input r3).2.produced = [] →
        subSz r3.buffer_size (callDecoder codec input r3).2.available_out = 0 := by
      intro hnil
      have h4 : r3.produced ++ (codec.BrotliDecoderDecompressStream r3.state
          (input.drop r3.next_in) r3.available_in r3.available_out).written = [] := hnil
      rw [hcall r3 (hP1 (List.append_eq_nil.mp h4).1) hP2 hnil, subSz_self]
    obtain ⟨_, h5 | h6 | h7 | h0⟩ := loopBody_leave_inv codec alloc input r3 r4 res3 hb
    · obtain ⟨_, _, rfl⟩ := h5; exact key
    · obtain ⟨_, _, _, rfl⟩ := h6; exact key
    · obtain ⟨_, rfl⟩ := h7; exact key
    · obtain ⟨_, rfl⟩ := h0; exact key

/-- C7: for every input, decoder, allocator and prior state, the call returns
once the loop is given 25 passes; whenever the decoder's last report is
`SUCCESS` and it has written no byte at all, the call returns 0 and records
error code 8; and a return of 1 never comes with a zero-length result. -/
theorem empty_output_is_a_failure {σ : Type} (codec : Codec σ) (alloc : Allocator)
    (fuel : Nat) (g : SafeState) (compressed_data : Option (List Byte))
    (compressed_size : Nat) :
    (25 ≤ fuel →
      ∃ o, safe_decompress_brotli codec alloc fuel g compressed_data compressed_size
        = some o) ∧
    ∀ o, safe_decompress_brotli codec alloc fuel g compressed_data compressed_size = some o →
      (o.result = some BrotliDecoderResult.SUCCESS → o.produced = [] →
        o.ret = 0 ∧ get_error_code o.g = 8) ∧
      (o.ret = 1 → get_decompressed_size o.g ≠ 0) := by
  refine ⟨fun hfuel => safe_decompress_brotli_total codec alloc fuel hfuel g compressed_data
    compressed_size, fun o hrun => ?_⟩
  rcases safe_decompress_brotli_inv codec alloc fuel g compressed_data compressed_size o hrun
    with ⟨_, rfl⟩ | ⟨_, _, rfl⟩ | ⟨_, _, _, _, rfl⟩ | ⟨_, _, _, _, _, rfl⟩ |
      ⟨input, buffer, state, res, r, _, _, _, hm, _, hl, rfl⟩
  · exact ⟨fun h => (by cases h), fun h => (by cases h)⟩
  · exact ⟨fun h => (by cases h), fun h => (by cases h)⟩
  · exact ⟨fun h => (by cases h), fun h => (by cases h)⟩
  · exact ⟨fun h => (by cases h), fun h => (by cases h)⟩
  · have hz := decodeLoop_nothing_produced codec alloc input fuel _ r res rfl
      (by
        show initialBufferSize compressed_size < SIZE_MOD
        have := initialBufferSize_le compressed_size
        rw [MAX_BUFFER_SIZE_eq] at this
        rw [SIZE_MOD_eq]
        omega) hl
    rcases publish_cases alloc res r with ⟨hres, e⟩ | ⟨_, _, e⟩ | ⟨_, hnz, _, e⟩ |
      ⟨_, hnz, fresh, _, e⟩
    · rw [e]
      exact ⟨fun h => absurd (Option.some.inj h) hres, fun h => (by cases h)⟩
    · rw [e]
      exact ⟨fun _ _ => ⟨rfl, rfl⟩, fun h => (by cases h)⟩
    · rw [e]
      exact ⟨fun _ hp => absurd (hz hp) hnz, fun h => (by cases h)⟩
    · rw [e]
      exact ⟨fun _ hp => absurd (hz hp) hnz, fun _ => hnz⟩

set_option maxRecDepth 100000 in
/-- Witness for C7: a one-byte input whose stream decodes to nothing. -/
theorem empty_output_is_a_failure_witness :
    (∃ o, safe_decompress_brotli (streamOf []) plentifulHeap 25 g_state_init (some [27]) 1
      = some o) ∧
    safe_decompress_brotli (streamOf []) plentifulHeap 25 g_state_init (some [27]) 1
      = some emptyOutcome ∧
    emptyOutcome.result = some BrotliDecoderResult.SUCCESS ∧ emptyOutcome.produced = [] ∧
    emptyOutcome.ret = 0 ∧ get_error_code emptyOutcome.g = 8 :=
  ⟨(empty_output_is_a_failure (streamOf []) plentifulHeap 25 g_state_init (some [27]) 1).1
      (Nat.le_refl _),
    by decide, rfl, rfl,
    ((empty_output_is_a_failure (streamOf []) plentifulHeap 25 g_state_init (some [27]) 1).2
      emptyOutcome (by decide)).1 rfl rfl⟩


/-! ### Streams measured against the ceiling -/

theorem callDecoder_fills {σ : Type} (codec : Codec σ) (pending : σ → Nat)
    (input : List Byte) (r : Run σ) (hf : codec.Fills pending)
    (h : r.available_out < pending r.state) :
    (callDecoder codec input r).1 = BrotliDecoderResult.NEEDS_MORE_OUTPUT ∧
    (callDecoder codec input r).2.available_out = 0 ∧
    pending (callDecoder codec input r).2.state = pending r.state - r.available_out := by
  obtain ⟨h1, h2, h3⟩ := hf r.state (input.drop r.next_in) r.available_in r.available_out h
  refine ⟨h1, ?_, h3⟩
  show subSz r.available_out (codec.BrotliDecoderDecompressStream r.state
    (input.drop r.next_in) r.available_in r.available_out).written.length = 0
  rw [h2, subSz_self]

theorem callDecoder_completes {σ : Type} (codec : Codec σ) (pending : σ → Nat)
    (input : List Byte) (r : Run σ) (hc : codec.Completes pending)
    (h : pending r.state ≤ r.available_out) (hlt : r.available_out < SIZE_MOD) :
    (callDecoder codec input r).1 = BrotliDecoderResult.SUCCESS ∧
    (callDecoder codec input r).2.available_out = r.available_out - pending r.state := by
  obtain ⟨h1, h2, _⟩ := hc r.state (input.drop r.next_in) r.available_in r.available_out h
  refine ⟨h1, ?_⟩
  show subSz r.available_out (codec.BrotliDecoderDecompressStream r.state
    (input.drop r.next_in) r.available_in r.available_out).written.length = _
  rw [h2, subSz_of_le _ _ h hlt]

theorem realloc_granted (alloc : Allocator) (halloc : ∀ k m, alloc.grants k m = true)
    (k : Nat) (old : List Byte) (n : Nat) : realloc alloc k old n ≠ none := by
  unfold realloc
  rw [if_pos (halloc k n)]
  exact Option.some_ne_none _

theorem malloc_granted (alloc : Allocator) (halloc : ∀ k m, alloc.grants k m = true)
    (k n : Nat) : malloc alloc k n = some ((List.range n).map (alloc.junk k)) := by
  unfold malloc
  rw [if_pos (halloc k n)]

theorem decodeLoop_limit {σ : Type} (codec : Codec σ) (alloc : Allocator) (pending : σ → Nat)
    (input : List Byte) (hf : codec.Fills pending)
    (halloc : ∀ k m, alloc.grants k m = true) (T : Nat) (hT : MAX_BUFFER_SIZE < T)
    (fuel : Nat) (r r2 : Run σ) (res : BrotliDecoderResult)
    (h1 : r.available_out ≤ r.buffer_size) (h2 : r.buffer_size ≤ MAX_BUFFER_SIZE)
    (h3 : pending r.state + (r.buffer_size - r.available_out) = T)
    (h : decodeLoop codec alloc input fuel r = some (res, r2)) :
    res = BrotliDecoderResult.NEEDS_MORE_OUTPUT ∧
    r2.g = set_error r.g (cbytes "Límite máximo de descompresión excedido") 5 := by
  refine decodeLoop_rule codec alloc input
    (fun r3 => r3.g = r.g ∧ r3.available_out ≤ r3.buffer_size ∧
      r3.buffer_size ≤ MAX_BUFFER_SIZE ∧
      pending r3.state + (r3.buffer_size - r3.available_out) = T)
    (fun res3 r3 => res3 = BrotliDecoderResult.NEEDS_MORE_OUTPUT ∧
      r3.g = set_error r.g (cbytes "Límite máximo de descompresión excedido") 5)
    ?_ ?_ fuel r res r2 ⟨rfl, h1, h2, h3⟩ h
  · intro r3 r4 hP hb
    obtain ⟨hg, p1, p2, p3⟩ := hP
    obtain ⟨_, hle, nb, _, rfl⟩ := loopBody_again_inv codec alloc input r3 r4 hb
    obtain ⟨_, c2, c3⟩ := callDecoder_fills codec pending input r3 hf (by omega)
    have hm := mulSz_two r3.buffer_size p2
    have hlt : r3.buffer_size < SIZE_MOD := by
      rw [SIZE_MOD_eq]; rw [MAX_BUFFER_SIZE_eq] at p2; omega
    refine ⟨hg, ?_, hle, ?_⟩
    · show subSz (mulSz r3.buffer_size 2)
          (subSz r3.buffer_size (callDecoder codec input r3).2.available_out)
        ≤ mulSz r3.buffer_size 2
      rw [c2, subSz_zero _ hlt, hm, subSz_of_le _ _ (by omega)
        (by rw [SIZE_MOD_eq]; rw [MAX_BUFFER_SIZE_eq] at p2; omega)]
      omega
    · show pending (callDecoder codec input r3).2.state + (mulSz r3.buffer_size 2
          - subSz (mulSz r3.buffer_size 2)
              (subSz r3.buffer_size (callDecoder codec input r3).2.available_out)) = T
      rw [c2, c3, subSz_zero _ hlt, hm, subSz_of_le _ _ (by omega)
        (by rw [SIZE_MOD_eq]; rw [MAX_BUFFER_SIZE_eq] at p2; omega)]
      omega
  · intro r3 res3 r4 hP hb
    obtain ⟨hg, p1, p2, p3⟩ := hP
    simp only at hg
    obtain ⟨c1, _, _⟩ := callDecoder_fills codec pending input r3 hf (by omega)
    obtain ⟨hres, h5 | h6 | h7 | h0⟩ := loopBody_leave_inv codec alloc input r3 r4 res3 hb
    · obtain ⟨e, _, rfl⟩ := h5
      exact ⟨e, by rw [hg]⟩
    · obtain ⟨_, _, hre, _⟩ := h6
      exact absurd hre (realloc_granted alloc halloc _ _ _)
    · obtain ⟨e, _⟩ := h7
      rw [hres, c1] at e
      cases e
    · obtain ⟨e, _⟩ := h0
      rw [hres, c1] at e
      rcases e with e | e <;> cases e

theorem streamOf_fills (out : List Byte) : (streamOf out).Fills (fun k => out.length - k) := by
  intro s inp ain aout h
  have hlen : aout < (out.drop s).length := by
    rw [List.length_drop]
    exact h
  have e : (streamOf out).BrotliDecoderDecompressStream s inp ain aout
      = ⟨BrotliDecoderResult.NEEDS_MORE_OUTPUT, s + aout, 0, (out.drop s).take aout⟩ := by
    show (if aout < (out.drop s).length then _ else _ : StreamStep Nat) = _
    rw [if_pos hlen]
  rw [e]
  refine ⟨rfl, ?_, ?_⟩
  · show ((out.drop s).take aout).length = aout
    rw [List.length_take]
    omega
  · show out.length - (s + aout) = out.length - s - aout
    omega

theorem streamOf_completes (out : List Byte) :
    (streamOf out).Completes (fun k => out.length - k) := by
  intro s inp ain aout h
  have hlen : ¬ aout < (out.drop s).length := by
    rw [List.length_drop]
    exact Nat.not_lt.mpr h
  have e : (streamOf out).BrotliDecoderDecompressStream s inp ain aout
      = ⟨BrotliDecoderResult.SUCCESS, out.length, ain, out.drop s⟩ := by
    show (if aout < (out.drop s).length then _ else _ : StreamStep Nat) = _
    rw [if_neg hlen]
  rw [e]
  refine ⟨rfl, ?_, ?_⟩
  · show (out.drop s).length = out.length - s
    rw [List.length_drop]
  · show out.length - out.length = 0
    omega

theorem limit_hit_on_first_pass {σ : Type} (codec : Codec σ) (alloc : Allocator)
    (pending : σ → Nat) (fuel : Nat) (g : SafeState) (input : List Byte) (n : Nat) (s0 : σ)
    (h0 : 0 < n) (h1 : n ≤ 50 * 1024 * 1024) (halloc : ∀ k m, alloc.grants k m = true)
    (hcreate : codec.BrotliDecoderCreateInstance = some s0) (hf : codec.Fills pending)
    (hlt : initialBufferSize n < pending s0)
    (hgt : MAX_BUFFER_SIZE < 2 * initialBufferSize n) (hfuel : 1 ≤ fuel) :
    ∃ o, safe_decompress_brotli codec alloc fuel g (some input) n = some o ∧
      o.ret = 0 ∧ get_error_code o.g = 5 := by
  have hle := initialBufferSize_le n
  obtain ⟨res, r, hl⟩ := decodeLoop_terminates codec alloc input fuel
    (initialRun g s0 n ((List.range (initialBufferSize n)).map (alloc.junk 0))
      (initialBufferSize n))
    (by show 0 < initialBufferSize n; omega) hle
    (by
      show MAX_BUFFER_SIZE < initialBufferSize n * 2 ^ fuel
      have hp : 2 ^ 1 ≤ 2 ^ fuel := Nat.pow_le_pow_right (by decide) hfuel
      calc MAX_BUFFER_SIZE < 2 * initialBufferSize n := hgt
        _ = initialBufferSize n * 2 ^ 1 := by ring
        _ ≤ initialBufferSize n * 2 ^ fuel := Nat.mul_le_mul_left _ hp)
  have hrun := safe_decompress_brotli_accepted codec alloc fuel g input n _ s0 res r h0 h1
    (malloc_granted alloc halloc 0 _) hcreate hl
  have hQ : res = BrotliDecoderResult.NEEDS_MORE_OUTPUT ∧
      r.g = set_error g (cbytes "Límite máximo de descompresión excedido") 5 := by
    refine decodeLoop_rule codec alloc input
      (fun r3 => r3 = initialRun g s0 n ((List.range (initialBufferSize n)).map (alloc.junk 0))
        (initialBufferSize n))
      (fun res3 r3 => res3 = BrotliDecoderResult.NEEDS_MORE_OUTPUT ∧
        r3.g = set_error g (cbytes "Límite máximo de descompresión excedido") 5)
      ?_ ?_ fuel _ res r rfl hl
    · intro r3 r4 hP hb
      subst hP
      obtain ⟨_, hle2, _⟩ := loopBody_again_inv codec alloc input _ r4 hb
      have hm : mulSz (initialBufferSize n) 2 = 2 * initialBufferSize n := mulSz_two _ hle
      have hle3 : mulSz (initialBufferSize n) 2 ≤ MAX_BUFFER_SIZE := hle2
      omega
    · intro r3 res3 r4 hP hb
      subst hP
      obtain ⟨c1, _, _⟩ := callDecoder_fills codec pending input
        (initialRun g s0 n ((List.range (initialBufferSize n)).map (alloc.junk 0))
          (initialBufferSize n)) hf hlt
      obtain ⟨hres, h5 | h6 | h7 | h0⟩ := loopBody_leave_inv codec alloc input _ r4 res3 hb
      · obtain ⟨e, _, rfl⟩ := h5
        exact ⟨e, rfl⟩
      · obtain ⟨_, _, hre, _⟩ := h6
        exact absurd hre (realloc_granted alloc halloc _ _ _)
      · obtain ⟨e, _⟩ := h7
        rw [hres, c1] at e
        cases e
      · obtain ⟨e, _⟩ := h0
        rw [hres, c1] at e
        rcases e with e | e <;> cases e
  obtain ⟨hres, hg⟩ := hQ
  rcases publish_cases alloc res r with ⟨_, e⟩ | ⟨e2, _⟩ | ⟨e2, _⟩ | ⟨e2, _⟩
  · refine ⟨_, hrun, by rw [e], ?_⟩
    rw [e]
    show r.g.error_code = 5
    rw [hg]
    rfl
  · rw [hres] at e2; cases e2
  · rw [hres] at e2; cases e2
  · rw [hres] at e2; cases e2

/-- C5: for every accepted input (non-null, 1 to 52428800 bytes) whose stream
has more than `MAX_BUFFER_SIZE` bytes of output pending, with a decoder that
fills the space offered and reports `NEEDS_MORE_OUTPUT` while more is pending
and an allocator that grants every request, `safe_decompress_brotli` returns
(25 passes of the loop are enough), the return value is 0, error code 5 is
recorded, and the data pointer and size are left as they were: nothing is
published. -/
theorem oversized_stream_hits_limit {σ : Type} (codec : Codec σ) (alloc : Allocator)
    (pending : σ → Nat) (fuel : Nat) (g : SafeState) (input : List Byte) (n : Nat) (s0 : σ)
    (h0 : 0 < n) (h1 : n ≤ 50 * 1024 * 1024) (halloc : ∀ k m, alloc.grants k m = true)
    (hcreate : codec.BrotliDecoderCreateInstance = some s0) (hf : codec.Fills pending)
    (hbig : MAX_BUFFER_SIZE < pending s0) (hfuel : 25 ≤ fuel) :
    ∃ o, safe_decompress_brotli codec alloc fuel g (some input) n = some o ∧
      o.ret = 0 ∧ get_error_code o.g = 5 ∧
      get_decompressed_data o.g = get_decompressed_data g ∧
      get_decompressed_size o.g = get_decompressed_size g := by
  have hle := initialBufferSize_le n
  obtain ⟨res, r, hl⟩ := decodeLoop_total codec alloc input fuel hfuel
    (initialRun g s0 n ((List.range (initialBufferSize n)).map (alloc.junk 0))
      (initialBufferSize n))
    (initialBufferSize_ge n h0 h1) hle
  have hrun := safe_decompress_brotli_accepted codec alloc fuel g input n _ s0 res r h0 h1
    (malloc_granted alloc halloc 0 _) hcreate hl
  obtain ⟨hres, hg⟩ := decodeLoop_limit codec alloc pending input hf halloc (pending s0) hbig
    fuel _ r res (Nat.le_refl _) hle
    (by
      show pending s0 + (initialBufferSize n - initialBufferSize n) = pending s0
      omega) hl
  have hg2 : r.g = set_error g (cbytes "Límite máximo de descompresión excedido") 5 := hg
  rcases publish_cases alloc res r with ⟨_, e⟩ | ⟨e2, _⟩ | ⟨e2, _⟩ | ⟨e2, _⟩
  · refine ⟨_, hrun, by rw [e], ?_, ?_, ?_⟩ <;> rw [e] <;>
      first
      | (show r.g.error_code = 5; rw [hg2]; rfl)
      | (show r.g.data = g.data; rw [hg2]; rfl)
      | (show r.g.size = g.size; rw [hg2]; rfl)
  · rw [hres] at e2; cases e2
  · rw [hres] at e2; cases e2
  · rw [hres] at e2; cases e2

/-- Witness for C5: a one-byte input whose stream expands to 300000000 bytes,
on a state that holds an earlier result. -/
theorem oversized_stream_hits_limit_witness :
    ∃ o, safe_decompress_brotli (streamOf (List.replicate 300000000 0)) plentifulHeap 25
        staleHost.g_state (some [27]) 1 = some o ∧
      o.ret = 0 ∧ get_error_code o.g = 5 ∧
      get_decompressed_data o.g = get_decompressed_data staleHost.g_state ∧
      get_decompressed_size o.g = get_decompressed_size staleHost.g_state :=
  oversized_stream_hits_limit (streamOf (List.replicate 300000000 0)) plentifulHeap
    (fun k => (List.replicate 300000000 0).length - k) 25 staleHost.g_state [27] 1 0
    (by decide) (by decide) (fun _ _ => rfl) rfl (streamOf_fills _)
    (by
      show MAX_BUFFER_SIZE < (List.replicate 300000000 0).length - 0
      rw [List.length_replicate]
      decide)
    (Nat.le_refl _)

/-! ### The limit and the capacities the doubling reaches -/

theorem initialBufferSize_eq_min (n : Nat) (h1 : n ≤ 50 * 1024 * 1024) :
    initialBufferSize n = min (n * 10) MAX_BUFFER_SIZE := by
  have hmod : mulSz n MAX_DECOMPRESSION_RATIO = n * 10 := by
    unfold mulSz MAX_DECOMPRESSION_RATIO
    rw [SIZE_MOD_eq]
    exact Nat.mod_eq_of_lt (by omega)
  unfold initialBufferSize
  rw [hmod, MAX_BUFFER_SIZE_eq]
  simp only
  split <;> omega

theorem decodeLoop_fits_or_limit {σ : Type} (codec : Codec σ) (alloc : Allocator)
    (pending : σ → Nat) (input : List Byte) (hf : codec.Fills pending)
    (hc : codec.Completes pending) (halloc : ∀ k m, alloc.grants k m = true)
    (T b0 : Nat) (fuel : Nat) (r r2 : Run σ) (res : BrotliDecoderResult)
    (h1 : r.available_out ≤ r.buffer_size) (h2 : r.buffer_size ≤ MAX_BUFFER_SIZE)
    (h3 : pending r.state + (r.buffer_size - r.available_out) = T)
    (h4 : ∃ k, r.buffer_size = b0 * 2 ^ k)
    (h : decodeLoop codec alloc input fuel r = some (res, r2)) :
    (∃ k, r2.buffer_size = b0 * 2 ^ k) ∧ r2.buffer_size ≤ MAX_BUFFER_SIZE ∧
    ((res = BrotliDecoderResult.SUCCESS ∧ r2.g = r.g ∧
        subSz r2.buffer_size r2.available_out = T ∧ T ≤ r2.buffer_size) ∨
     (res = BrotliDecoderResult.NEEDS_MORE_OUTPUT ∧
        r2.g = set_error r.g (cbytes "Límite máximo de descompresión excedido") 5 ∧
        r2.buffer_size < T ∧ MAX_BUFFER_SIZE < 2 * r2.buffer_size)) := by
  refine decodeLoop_rule codec alloc input
    (fun r3 => r3.g = r.g ∧ r3.available_out ≤ r3.buffer_size ∧
      r3.buffer_size ≤ MAX_BUFFER_SIZE ∧
      pending r3.state + (r3.buffer_size - r3.available_out) = T ∧
      ∃ k, r3.buffer_size = b0 * 2 ^ k)
    (fun res3 r3 => (∃ k, r3.buffer_size = b0 * 2 ^ k) ∧
      r3.buffer_size ≤ MAX_BUFFER_SIZE ∧
      ((res3 = BrotliDecoderResult.SUCCESS ∧ r3.g = r.g ∧
          subSz r3.buffer_size r3.available_out = T ∧ T ≤ r3.buffer_size) ∨
       (res3 = BrotliDecoderResult.NEEDS_MORE_OUTPUT ∧
          r3.g = set_error r.g (cbytes "Límite máximo de descompresión excedido") 5 ∧
          r3.buffer_size < T ∧ MAX_BUFFER_SIZE < 2 * r3.buffer_size)))
    ?_ ?_ fuel r res r2 ⟨rfl, h1, h2, h3, h4⟩ h
  · intro r3 r4 hP hb
    obtain ⟨hg, p1, p2, p3, k, p4⟩ := hP
    obtain ⟨hnmo, hle, nb, _, rfl⟩ := loopBody_again_inv codec alloc input r3 r4 hb
    have hlt : r3.buffer_size < SIZE_MOD := by
      rw [SIZE_MOD_eq]; rw [MAX_BUFFER_SIZE_eq] at p2; omega
    have hpend : r3.available_out < pending r3.state := by
      by_contra hcon
      have := (callDecoder_completes codec pending input r3 hc (Nat.le_of_not_lt hcon)
        (by omega)).1
      rw [this] at hnmo
      cases hnmo
    obtain ⟨_, c2, c3⟩ := callDecoder_fills codec pending input r3 hf hpend
    have hm := mulSz_two r3.buffer_size p2
    refine ⟨hg, ?_, hle, ?_, k + 1, ?_⟩
    · show subSz (mulSz r3.buffer_size 2)
          (subSz r3.buffer_size (callDecoder codec input r3).2.available_out)
        ≤ mulSz r3.buffer_size 2
      rw [c2, subSz_zero _ hlt, hm, subSz_of_le _ _ (by omega)
        (by rw [SIZE_MOD_eq]; rw [MAX_BUFFER_SIZE_eq] at p2; omega)]
      omega
    · show pending (callDecoder codec input r3).2.state + (mulSz r3.buffer_size 2
          - subSz (mulSz r3.buffer_size 2)
              (subSz r3.buffer_size (callDecoder codec input r3).2.available_out)) = T
      rw [c2, c3, subSz_zero _ hlt, hm, subSz_of_le _ _ (by omega)
        (by rw [SIZE_MOD_eq]; rw [MAX_BUFFER_SIZE_eq] at p2; omega)]
      omega
    · show mulSz r3.buffer_size 2 = b0 * 2 ^ (k + 1)
      rw [hm, p4, pow_succ]
      ring
  · intro r3 res3 r4 hP hb
    obtain ⟨hg, p1, p2, p3, p4⟩ := hP
    simp only at hg
    have hlt : r3.buffer_size < SIZE_MOD := by
      rw [SIZE_MOD_eq]; rw [MAX_BUFFER_SIZE_eq] at p2; omega
    have hm := mulSz_two r3.buffer_size p2
    by_cases hpend : r3.available_out < pending r3.state
    · obtain ⟨c1, _, _⟩ := callDecoder_fills codec pending input r3 hf hpend
      obtain ⟨hres, h5 | h6 | h7 | h0⟩ := loopBody_leave_inv codec alloc input r3 r4 res3 hb
      · obtain ⟨e, hgt, rfl⟩ := h5
        rw [hm] at hgt
        exact ⟨p4, p2, Or.inr ⟨e, by rw [hg], by show r3.buffer_size < T; omega, hgt⟩⟩
      · obtain ⟨_, _, hre, _⟩ := h6
        exact absurd hre (realloc_granted alloc halloc _ _ _)
      · obtain ⟨e, _⟩ := h7
        rw [hres, c1] at e
        cases e
      · obtain ⟨e, _⟩ := h0
        rw [hres, c1] at e
        rcases e with e | e <;> cases e
    · obtain ⟨c1, c2⟩ := callDecoder_completes codec pending input r3 hc
        (Nat.le_of_not_lt hpend) (by omega)
      obtain ⟨hres, h5 | h6 | h7 | h0⟩ := loopBody_leave_inv codec alloc input r3 r4 res3 hb
      · obtain ⟨e, _⟩ := h5
        rw [hres, c1] at e
        cases e
      · obtain ⟨e, _⟩ := h6
        rw [hres, c1] at e
        cases e
      · obtain ⟨e, _⟩ := h7
        rw [hres, c1] at e
        cases e
      · obtain ⟨_, rfl⟩ := h0
        refine ⟨p4, p2, Or.inl ⟨by rw [hres, c1], hg, ?_, ?_⟩⟩
        · show subSz r3.buffer_size (callDecoder codec input r3).2.available_out = T
          rw [c2, subSz_of_le _ _ (by omega) hlt]
          omega
        · show T ≤ r3.buffer_size
          omega

/-- C6, as the code has it: the limit is tested on the doubled capacity, so
error code 5 is recorded exactly when the output does not fit the largest
capacity that doubling from the initial one reaches within the ceiling.  For
every accepted input of `n` bytes whose stream is valid with `T` bytes of
output, with an allocator that grants every request, the call returns and
ends with error code 5 if and only if `T` exceeds every capacity
`min (n * 10) MAX_BUFFER_SIZE * 2 ^ k` that is at most `MAX_BUFFER_SIZE`; with
code 5 the return value is 0, otherwise the decoder ended with `SUCCESS`.  In
particular, from 20 MiB of input on, where the initial capacity is the
ceiling, an output of at most `MAX_BUFFER_SIZE` never ends with code 5. -/
theorem limit_hit_iff_output_exceeds_reachable_capacity {σ : Type} (codec : Codec σ)
    (alloc : Allocator) (pending : σ → Nat) (fuel : Nat) (g : SafeState)
    (input : List Byte) (n : Nat) (s0 : σ)
    (h0 : 0 < n) (h1 : n ≤ 50 * 1024 * 1024) (halloc : ∀ k m, alloc.grants k m = true)
    (hcreate : codec.BrotliDecoderCreateInstance = some s0) (hf : codec.Fills pending)
    (hc : codec.Completes pending) (hfuel : 25 ≤ fuel) :
    ∃ o, safe_decompress_brotli codec alloc fuel g (some input) n = some o ∧
      (get_error_code o.g = 5 ↔
        ∀ k, min (n * 10) MAX_BUFFER_SIZE * 2 ^ k ≤ MAX_BUFFER_SIZE →
          min (n * 10) MAX_BUFFER_SIZE * 2 ^ k < pending s0) ∧
      (get_error_code o.g = 5 →
        o.ret = 0 ∧ o.result = some BrotliDecoderResult.NEEDS_MORE_OUTPUT) ∧
      (get_error_code o.g ≠ 5 → o.result = some BrotliDecoderResult.SUCCESS) ∧
      (MAX_BUFFER_SIZE ≤ n * 10 → pending s0 ≤ MAX_BUFFER_SIZE →
        get_error_code o.g ≠ 5) := by
  have hle := initialBufferSize_le n
  have hge := initialBufferSize_ge n h0 h1
  have hmin := initialBufferSize_eq_min n h1
  obtain ⟨res, r, hl⟩ := decodeLoop_total codec alloc input fuel hfuel
    (initialRun g s0 n ((List.range (initialBufferSize n)).map (alloc.junk 0))
      (initialBufferSize n)) hge hle
  have hrun := safe_decompress_brotli_accepted codec alloc fuel g input n _ s0 res r h0 h1
    (malloc_granted alloc halloc 0 _) hcreate hl
  obtain ⟨⟨k, hk⟩, hcap, hend⟩ := decodeLoop_fits_or_limit codec alloc pending input hf hc
    halloc (pending s0) (initialBufferSize n) fuel _ r res (Nat.le_refl _) hle
    (by
      show pending s0 + (initialBufferSize n - initialBufferSize n) = pending s0
      omega)
    ⟨0, by show initialBufferSize n = initialBufferSize n * 2 ^ 0; omega⟩ hl
  rw [← hmin]
  have hres_eq := (publish_calls alloc res r).2.2
  rcases hend with ⟨hres, hg, hT, hfit⟩ | ⟨hres, hg, hless, hover⟩
  · have hcode : get_error_code (publish alloc res r).g ≠ 5 := by
      rcases publish_cases alloc res r with
        ⟨e2, _⟩ | ⟨_, _, e⟩ | ⟨_, _, hm, _⟩ | ⟨_, _, _, _, e⟩
      · exact absurd hres e2
      · rw [e]
        show (8 : Int) ≠ 5
        decide
      · rw [malloc_granted alloc halloc] at hm
        cases hm
      · rw [e]
        show (0 : Int) ≠ 5
        decide
    refine ⟨_, hrun, ⟨fun h5 => absurd h5 hcode, fun hall => ?_⟩,
      fun h5 => absurd h5 hcode, fun _ => by rw [hres_eq, hres], fun _ _ => hcode⟩
    have := hall k (by rw [← hk]; exact hcap)
    rw [← hk] at this
    omega
  · have hg2 : r.g = set_error g (cbytes "Límite máximo de descompresión excedido") 5 := hg
    have hpub : publish alloc res r = ⟨0, r.g, r.requests, r.calls, r.produced, some res⟩ := by
      rcases publish_cases alloc res r with ⟨_, e⟩ | ⟨e2, _⟩ | ⟨e2, _⟩ | ⟨e2, _⟩
      · exact e
      · rw [hres] at e2; cases e2
      · rw [hres] at e2; cases e2
      · rw [hres] at e2; cases e2
    have hcode : get_error_code (publish alloc res r).g = 5 := by
      rw [hpub]
      show r.g.error_code = 5
      rw [hg2]
      rfl
    have hall : ∀ j, initialBufferSize n * 2 ^ j ≤ MAX_BUFFER_SIZE →
        initialBufferSize n * 2 ^ j < pending s0 := by
      intro j hj
      by_cases hjk : j ≤ k
      · have hp : 2 ^ j ≤ 2 ^ k := Nat.pow_le_pow_right (by decide) hjk
        have := Nat.mul_le_mul_left (initialBufferSize n) hp
        omega
      · have hp : 2 ^ (k + 1) ≤ 2 ^ j := Nat.pow_le_pow_right (by decide) (by omega)
        have h3 := Nat.mul_le_mul_left (initialBufferSize n) hp
        rw [pow_succ] at h3
        have h4 : initialBufferSize n * (2 ^ k * 2) = 2 * r.buffer_size := by
          rw [hk]; ring
        omega
    refine ⟨_, hrun, ⟨fun _ => hall, fun _ => hcode⟩,
      fun _ => ⟨by rw [hpub], by rw [hres_eq, hres]⟩, fun hne => absurd hcode hne,
      fun hbig hsmall => ?_⟩
    have hb0 : initialBufferSize n = MAX_BUFFER_SIZE := by
      rw [hmin]
      exact Nat.min_eq_right hbig
    have := hall 0 (by rw [hb0]; simp)
    rw [hb0] at this
    omega

set_option maxRecDepth 100000 in
/-- Witness for C6: an output of 25 bytes for a one-byte input is reached by
two growth steps (capacities 10, 20, 40) and ends without code 5; an output
of exactly `MAX_BUFFER_SIZE` bytes ends with code 5 for a 15 MiB input, whose
only capacity within the ceiling is 150 MiB, and without code 5 for a 20 MiB
input. -/
theorem limit_hit_iff_output_exceeds_reachable_capacity_witness :
    (safe_decompress_brotli (streamOf (List.range 25)) plentifulHeap 25 g_state_init
        (some [27]) 1).map (fun o => (o.ret, get_error_code o.g, o.requests))
      = some (1, 0, [10, 20, 40, 25]) ∧
    (∃ o, safe_decompress_brotli (streamOf (List.range 25)) plentifulHeap 25 g_state_init
        (some [27]) 1 = some o ∧ get_error_code o.g ≠ 5) ∧
    (∃ o, safe_decompress_brotli (streamOf (List.replicate 209715200 0)) plentifulHeap 25
        g_state_init (some (List.replicate 15728640 0)) 15728640 = some o ∧
      get_error_code o.g = 5) ∧
    (∃ o, safe_decompress_brotli (streamOf (List.replicate 209715200 0)) plentifulHeap 25
        g_state_init (some (List.replicate 20971520 0)) 20971520 = some o ∧
      get_error_code o.g ≠ 5) :=
  ⟨by decide,
    match limit_hit_iff_output_exceeds_reachable_capacity (streamOf (List.range 25))
      plentifulHeap (fun k => (List.range 25).length - k) 25 g_state_init [27] 1 0
      (by decide) (by decide) (fun _ _ => rfl) rfl (streamOf_fills _)
      (streamOf_completes _) (Nat.le_refl _) with
    | ⟨o, ho, hiff, _⟩ =>
      ⟨o, ho, fun h5 => absurd (hiff.mp h5 2 (by decide)) (by decide)⟩,
    match limit_hit_iff_output_exceeds_reachable_capacity
      (streamOf (List.replicate 209715200 0)) plentifulHeap
      (fun k => (List.replicate 209715200 0).length - k) 25 g_state_init
      (List.replicate 15728640 0) 15728640 0
      (by decide) (by decide) (fun _ _ => rfl) rfl (streamOf_fills _)
      (streamOf_completes _) (Nat.le_refl _) with
    | ⟨o, ho, hiff, _⟩ =>
      ⟨o, ho, hiff.mpr (fun k hk => by
        show min (15728640 * 10) MAX_BUFFER_SIZE * 2 ^ k
          < (List.replicate 209715200 0).length - 0
        rw [List.length_replicate]
        have e : min (15728640 * 10) MAX_BUFFER_SIZE = 157286400 := by decide
        rw [e] at hk ⊢
        rw [MAX_BUFFER_SIZE_eq] at hk
        cases k with
        | zero => simp
        | succ j =>
          have h1 : 1 ≤ 2 ^ j := Nat.one_le_two_pow
          rw [pow_succ] at hk
          have h2 : 157286400 * (2 ^ j * 2) = 314572800 * 2 ^ j := by ring
          rw [h2] at hk
          have h3 : 314572800 * 1 ≤ 314572800 * 2 ^ j := Nat.mul_le_mul_left _ h1
          omega)⟩,
    match limit_hit_iff_output_exceeds_reachable_capacity
      (streamOf (List.replicate 209715200 0)) plentifulHeap
      (fun k => (List.replicate 209715200 0).length - k) 25 g_state_init
      (List.replicate 20971520 0) 20971520 0
      (by decide) (by decide) (fun _ _ => rfl) rfl (streamOf_fills _)
      (streamOf_completes _) (Nat.le_refl _) with
    | ⟨o, ho, _, _, _, hbig⟩ =>
      ⟨o, ho, hbig (by decide) (by
        show (List.replicate 209715200 0).length - 0 ≤ MAX_BUFFER_SIZE
        rw [List.length_replicate]
        decide)⟩⟩

/-- C6 fails as stated: an accepted input of 15 MiB whose valid stream
decompresses to exactly `MAX_BUFFER_SIZE` bytes (so within the ceiling), with
an allocator that grants every request, ends with return value 0 and error
code 5.  The initial capacity is 150 MiB and its double is over the ceiling. -/
theorem limit_hit_within_ceiling :
    (streamOf (List.replicate 209715200 0)).Fills
      (fun k => (List.replicate 209715200 0).length - k) ∧
    (streamOf (List.replicate 209715200 0)).Completes
      (fun k => (List.replicate 209715200 0).length - k) ∧
    (List.replicate 209715200 0).length - 0 ≤ MAX_BUFFER_SIZE ∧
    ∃ o, safe_decompress_brotli (streamOf (List.replicate 209715200 0)) plentifulHeap 25
        g_state_init (some (List.replicate 15728640 0)) 15728640 = some o ∧
      o.ret = 0 ∧ get_error_code o.g = 5 :=
  ⟨streamOf_fills _, streamOf_completes _,
    by rw [List.length_replicate]; decide,
    limit_hit_on_first_pass (streamOf (List.replicate 209715200 0)) plentifulHeap
      (fun k => (List.replicate 209715200 0).length - k) 25 g_state_init
      (List.replicate 15728640 0) 15728640 0 (by decide) (by decide) (fun _ _ => rfl) rfl
      (streamOf_fills _)
      (by
        show initialBufferSize 15728640 < (List.replicate 209715200 0).length - 0
        rw [List.length_replicate]
        decide)
      (by decide) (by decide)⟩


/-! ## Error fields after a success, and the invariant of the result slot -/

/-- C11: whatever the prior result state, an earlier error code and message
included, after `safe_decompress_brotli` returns 1 `get_error_code()` is 0 and
`get_error_message()` is the empty string. -/
theorem success_clears_error {σ : Type} (codec : Codec σ) (alloc : Allocator) (fuel : Nat)
    (g : SafeState) (compressed_data : Option (List Byte)) (compressed_size : Nat)
    (o : Outcome)
    (hrun : safe_decompress_brotli codec alloc fuel g compressed_data compressed_size = some o)
    (hret : o.ret = 1) :
    get_error_code o.g = 0 ∧ get_error_message o.g = [] := by
  rcases safe_decompress_brotli_inv codec alloc fuel g compressed_data compressed_size o hrun
    with ⟨_, rfl⟩ | ⟨_, _, rfl⟩ | ⟨_, _, _, _, rfl⟩ | ⟨_, _, _, _, _, rfl⟩ |
      ⟨input, buffer, state, res, r, _, _, _, _, _, _, rfl⟩
  · cases hret
  · cases hret
  · cases hret
  · cases hret
  · rcases publish_cases alloc res r with
      ⟨_, e⟩ | ⟨_, _, e⟩ | ⟨_, _, _, e⟩ | ⟨_, _, _, _, e⟩
    · rw [e] at hret; cases hret
    · rw [e] at hret; cases hret
    · rw [e] at hret; cases hret
    · rw [e]
      refine ⟨rfl, ?_⟩
      show cstr (List.replicate 256 0) = []
      rfl

set_option maxRecDepth 100000 in
/-- Witness for C11: a stream decoding to 7, 8, 9, run on a state that holds
error 7 and its message from an earlier failure. -/
theorem success_clears_error_witness :
    get_error_code failedState = 7 ∧ get_error_message failedState ≠ [] ∧
    safe_decompress_brotli (streamOf [7, 8, 9]) plentifulHeap 25 failedState (some [27]) 1
      = some threeByteOutcome ∧
    threeByteOutcome.ret = 1 ∧
    get_error_code threeByteOutcome.g = 0 ∧ get_error_message threeByteOutcome.g = [] :=
  ⟨rfl, by decide, by decide, rfl,
    success_clears_error (streamOf [7, 8, 9]) plentifulHeap 25 failedState (some [27]) 1
      threeByteOutcome (by decide) rfl⟩

theorem set_error_consistent (g : SafeState) (message : List Byte) (code : Int)
    (h : g.Consistent) : (set_error g message code).Consistent := h

theorem safe_cleanup_consistent (g : SafeState) : (safe_cleanup g).Consistent :=
  ⟨fun h => absurd rfl h, fun h => absurd h (Nat.lt_irrefl 0)⟩

theorem safe_decompress_brotli_consistent {σ : Type} (codec : Codec σ) (alloc : Allocator)
    (fuel : Nat) (g : SafeState) (compressed_data : Option (List Byte))
    (compressed_size : Nat) (o : Outcome) (hg : g.Consistent)
    (hrun : safe_decompress_brotli codec alloc fuel g compressed_data compressed_size = some o) :
    o.g.Consistent := by
  rcases safe_decompress_brotli_inv codec alloc fuel g compressed_data compressed_size o hrun
    with ⟨_, rfl⟩ | ⟨_, _, rfl⟩ | ⟨_, _, _, _, rfl⟩ | ⟨_, _, _, _, _, rfl⟩ |
      ⟨input, buffer, state, res, r, _, _, _, _, _, hl, rfl⟩
  · exact hg
  · exact hg
  · exact hg
  · exact hg
  · obtain ⟨hd, hs⟩ := decodeLoop_g_data codec alloc input fuel _ r res hl
    have hr : r.g.Consistent := by
      unfold SafeState.Consistent
      rw [hd, hs]
      exact hg
    rcases publish_cases alloc res r with
      ⟨_, e⟩ | ⟨_, _, e⟩ | ⟨_, _, _, e⟩ | ⟨_, hnz, _, _, e⟩
    · rw [e]; exact hr
    · rw [e]; exact hr
    · rw [e]; exact safe_cleanup_consistent r.g
    · rw [e]
      exact ⟨fun _ => Nat.pos_of_ne_zero hnz, fun _ => Option.some_ne_none _⟩

/-- C18: the invariant "data is non-null if and only if size > 0" holds in the
initial zeroed state and after every operation that changes the state:
`safe_cleanup`, `free_resources` and `init_module` establish it from any
state; `set_error`, `initiate_download` and `safe_decompress_brotli` (every
path on which it returns, and it does return once the loop is given 25
passes) preserve it. -/
theorem result_state_consistent {σ : Type} (codec : Codec σ) (alloc : Allocator) (fuel : Nat)
    (g : SafeState) (message : List Byte) (code : Int)
    (compressed_data : Option (List Byte)) (compressed_size : Nat)
    (h : Host) (url : Option (List Byte)) (now : Int) :
    g_state_init.Consistent ∧
    (safe_cleanup g).Consistent ∧ (free_resources g).Consistent ∧
    (init_module g).Consistent ∧
    (g.Consistent → (set_error g message code).Consistent) ∧
    (g.Consistent →
      (25 ≤ fuel → ∃ o,
        safe_decompress_brotli codec alloc fuel g compressed_data compressed_size = some o) ∧
      ∀ o, safe_decompress_brotli codec alloc fuel g compressed_data compressed_size = some o →
        o.g.Consistent) ∧
    (h.g_state.Consistent → (initiate_download h url now).g_state.Consistent) := by
  refine ⟨safe_cleanup_consistent g_state_init, safe_cleanup_consistent g,
    safe_cleanup_consistent g, safe_cleanup_consistent g,
    set_error_consistent g message code, fun hg => ⟨fun hfuel => ?_, fun o hrun => ?_⟩,
    fun hh => ?_⟩
  · exact safe_decompress_brotli_total codec alloc fuel hfuel g compressed_data compressed_size
  · exact safe_decompress_brotli_consistent codec alloc fuel g compressed_data
      compressed_size o hg hrun
  · unfold initiate_download
    cases url with
    | none => exact hh
    | some u =>
      simp only
      split
      · exact hh
      · exact safe_cleanup_consistent h.g_state

set_option maxRecDepth 100000 in
/-- Witness for C18: the state holding a three-byte result, a corrupt one-byte
stream decompressed on it, and the empty URL. -/
theorem result_state_consistent_witness :
    staleHost.g_state.Consistent ∧
    (set_error staleHost.g_state [69] 7).Consistent ∧
    (∃ o, safe_decompress_brotli corruptStream plentifulHeap 25 staleHost.g_state
        (some [27]) 1 = some o ∧ o.g.Consistent) ∧
    (initiate_download staleHost (some []) 0).g_state.Consistent :=
  have hs : staleHost.g_state.Consistent :=
    ⟨fun _ => by decide, fun _ => Option.some_ne_none _⟩
  have key := result_state_consistent corruptStream plentifulHeap 25 staleHost.g_state [69] 7
    (some [27]) 1 staleHost (some []) 0
  ⟨hs, key.2.2.2.2.1 hs,
    match (key.2.2.2.2.2.1 hs).1 (Nat.le_refl _) with
    | ⟨o, ho⟩ => ⟨o, ho, (key.2.2.2.2.2.1 hs).2 o ho⟩,
    key.2.2.2.2.2.2 hs⟩


/-! ## Every pass of the loop -/

theorem loopTrace_rule {σ : Type} (codec : Codec σ) (alloc : Allocator) (input : List Byte)
    (P : Run σ → Prop)
    (hagain : ∀ r r2, P r → loopBody codec alloc input r = LoopStep.again r2 → P r2)
    (hleave : ∀ r res r2, P r → loopBody codec alloc input r = LoopStep.leave res r2 → P r2) :
    ∀ (fuel : Nat) (r : Run σ), P r → ∀ r2 ∈ loopTrace codec alloc input fuel r, P r2 := by
  intro fuel
  induction fuel with
  | zero => intro r _ r2 h; cases h
  | succ n ih =>
    intro r hP r2 h
    unfold loopTrace at h
    cases hb : loopBody codec alloc input r with
    | again r3 =>
      rw [hb] at h
      rcases List.mem_cons.mp h with h | h
      · rw [h]; exact hagain r r3 hP hb
      · exact ih r3 (hagain r r3 hP hb) r2 h
    | leave res r3 =>
      rw [hb] at h
      rw [List.mem_singleton.mp h]
      exact hleave r res r3 hP hb

theorem decodeLoop_last_of_trace {σ : Type} (codec : Codec σ) (alloc : Allocator)
    (input : List Byte) :
    ∀ (fuel : Nat) (r r2 : Run σ) (res : BrotliDecoderResult),
      decodeLoop codec alloc input fuel r = some (res, r2) →
      (loopTrace codec alloc input fuel r).getLast? = some r2 := by
  intro fuel
  induction fuel with
  | zero => intro r r2 res h; simp [decodeLoop] at h
  | succ n ih =>
    intro r r2 res h
    unfold decodeLoop at h
    unfold loopTrace
    cases hb : loopBody codec alloc input r with
    | again r3 =>
      rw [hb] at h
      simp only
      have h3 := ih r3 r2 res h
      cases ht : loopTrace codec alloc input n r3 with
      | nil => rw [ht] at h3; cases h3
      | cons a t =>
        rw [ht] at h3
        rw [List.getLast?_cons_cons]
        exact h3
    | leave res3 r3 =>
      rw [hb] at h
      simp only [Option.some.injEq, Prod.mk.injEq] at h
      obtain ⟨_, rfl⟩ := h
      rfl

/-! ## The bound on decoder calls -/

theorem decodeLoop_calls_le {σ : Type} (codec : Codec σ) (alloc : Allocator)
    (input : List Byte) (fuel : Nat) (r r2 : Run σ) (res : BrotliDecoderResult)
    (h1 : 10 * 2 ^ r.calls ≤ r.buffer_size) (h2 : r.buffer_size ≤ MAX_BUFFER_SIZE)
    (h : decodeLoop codec alloc input fuel r = some (res, r2)) : r2.calls ≤ 25 := by
  refine decodeLoop_rule codec alloc input
    (fun r3 => 10 * 2 ^ r3.calls ≤ r3.buffer_size ∧ r3.buffer_size ≤ MAX_BUFFER_SIZE)
    (fun _ r3 => r3.calls ≤ 25) ?_ ?_ fuel r res r2 ⟨h1, h2⟩ h
  · intro r3 r4 hP hb
    obtain ⟨p1, p2⟩ := hP
    obtain ⟨_, hle, nb, _, rfl⟩ := loopBody_again_inv codec alloc input r3 r4 hb
    refine ⟨?_, hle⟩
    show 10 * 2 ^ (r3.calls + 1) ≤ mulSz r3.buffer_size 2
    rw [mulSz_two _ p2, pow_succ]
    omega
  · intro r3 res3 r4 hP hb
    obtain ⟨p1, p2⟩ := hP
    have hc : r3.calls + 1 ≤ 25 := by
      by_contra hcon
      have hp : 2 ^ 25 ≤ 2 ^ r3.calls := Nat.pow_le_pow_right (by decide) (by omega)
      have h25 : (2 : Nat) ^ 25 = 33554432 := by norm_num
      rw [MAX_BUFFER_SIZE_eq] at p2
      omega
    obtain ⟨_, h5 | h6 | h7 | h0⟩ := loopBody_leave_inv codec alloc input r3 r4 res3 hb
    · obtain ⟨_, _, rfl⟩ := h5; exact hc
    · obtain ⟨_, _, _, rfl⟩ := h6; exact hc
    · obtain ⟨_, rfl⟩ := h7; exact hc
    · obtain ⟨_, rfl⟩ := h0; exact hc

/-- C17: the decode loop terminates for every input, every decoder behaviour
(also one that answers `NEEDS_MORE_OUTPUT` forever), every allocator and every
prior state: given 25 passes the call returns, and however many passes are
allowed, the decoder has been called at most 25 times when it returns. -/
theorem decoder_called_at_most_25_times {σ : Type} (codec : Codec σ) (alloc : Allocator)
    (fuel : Nat) (g : SafeState) (compressed_data : Option (List Byte))
    (compressed_size : Nat) :
    (25 ≤ fuel →
      ∃ o, safe_decompress_brotli codec alloc fuel g compressed_data compressed_size
        = some o) ∧
    ∀ o, safe_decompress_brotli codec alloc fuel g compressed_data compressed_size = some o →
      o.calls ≤ 25 := by
  refine ⟨fun hfuel => safe_decompress_brotli_total codec alloc fuel hfuel g compressed_data
    compressed_size, fun o hrun => ?_⟩
  rcases safe_decompress_brotli_inv codec alloc fuel g compressed_data compressed_size o hrun
    with ⟨_, rfl⟩ | ⟨_, _, rfl⟩ | ⟨_, _, _, _, rfl⟩ | ⟨_, _, _, _, _, rfl⟩ |
      ⟨input, buffer, state, res, r, _, h0, h1, _, _, hl, rfl⟩
  · exact Nat.zero_le _
  · exact Nat.zero_le _
  · exact Nat.zero_le _
  · exact Nat.zero_le _
  · rw [(publish_calls alloc res r).1]
    exact decodeLoop_calls_le codec alloc input fuel _ r res
      (by
        show 10 * 2 ^ 0 ≤ initialBufferSize compressed_size
        have := initialBufferSize_ge compressed_size h0 h1
        omega)
      (initialBufferSize_le compressed_size) hl

/-- Witness for C17: a one-byte input and a decoder that asks for more output
forever. -/
theorem decoder_called_at_most_25_times_witness :
    ∃ o, safe_decompress_brotli endlessStream plentifulHeap 25 g_state_init (some [27]) 1
        = some o ∧ o.calls ≤ 25 :=
  match (decoder_called_at_most_25_times endlessStream plentifulHeap 25 g_state_init
    (some [27]) 1).1 (Nat.le_refl _) with
  | ⟨o, ho⟩ =>
    ⟨o, ho, (decoder_called_at_most_25_times endlessStream plentifulHeap 25 g_state_init
      (some [27]) 1).2 o ho⟩


/-! ## Capacity and filled length on every pass -/

theorem wellBehaved_neverIncreases {σ : Type} (codec : Codec σ) (hw : codec.WellBehaved) :
    codec.NeverIncreases := by
  intro s inp ain aout
  have h := hw s inp ain aout
  unfold subSz
  rw [SIZE_MOD_eq]
  omega

theorem callDecoder_available_out_le {σ : Type} (codec : Codec σ) (input : List Byte)
    (r : Run σ) (hn : codec.NeverIncreases) :
    (callDecoder codec input r).2.available_out ≤ r.available_out :=
  hn r.state (input.drop r.next_in) r.available_in r.available_out

theorem loopTrace_capacity {σ : Type} (codec : Codec σ) (alloc : Allocator)
    (input : List Byte) (fuel : Nat) (r : Run σ) (h : r.buffer_size ≤ MAX_BUFFER_SIZE) :
    ∀ r2 ∈ r :: loopTrace codec alloc input fuel r, r2.buffer_size ≤ MAX_BUFFER_SIZE := by
  intro r2 hr2
  rcases List.mem_cons.mp hr2 with e | hmem
  · rw [e]; exact h
  · refine loopTrace_rule codec alloc input (fun r3 => r3.buffer_size ≤ MAX_BUFFER_SIZE)
      ?_ ?_ fuel r h r2 hmem
    · intro r3 r4 _ hb
      obtain ⟨_, hle, nb, _, rfl⟩ := loopBody_again_inv codec alloc input r3 r4 hb
      exact hle
    · intro r3 res3 r4 hP hb
      obtain ⟨_, h5 | h6 | h7 | h0⟩ := loopBody_leave_inv codec alloc input r3 r4 res3 hb
      · obtain ⟨_, _, rfl⟩ := h5; exact hP
      · obtain ⟨_, _, _, rfl⟩ := h6; exact hP
      · obtain ⟨_, rfl⟩ := h7; exact hP
      · obtain ⟨_, rfl⟩ := h0; exact hP

/-- C15: for every input length and every decoder that never increases
`available_out`, the state after the initial allocation and the state after
every pass of the decode loop satisfy `filled ≤ capacity ≤ MAX_BUFFER_SIZE`,
where `filled = capacity - available_out` is computed without underflow
(`available_out ≤ capacity`); a finished loop is left in the last of these
states. -/
theorem buffer_invariant_on_every_pass {σ : Type} (codec : Codec σ) (alloc : Allocator)
    (input : List Byte) (fuel : Nat) (g : SafeState) (state : σ) (n : Nat)
    (buffer : List Byte) (hn : codec.NeverIncreases) :
    (∀ r ∈ initialRun g state n buffer (initialBufferSize n) ::
        loopTrace codec alloc input fuel
          (initialRun g state n buffer (initialBufferSize n)),
      r.available_out ≤ r.buffer_size ∧
      subSz r.buffer_size r.available_out = r.buffer_size - r.available_out ∧
      subSz r.buffer_size r.available_out ≤ r.buffer_size ∧
      r.buffer_size ≤ MAX_BUFFER_SIZE) ∧
    ∀ res r2, decodeLoop codec alloc input fuel
        (initialRun g state n buffer (initialBufferSize n)) = some (res, r2) →
      (loopTrace codec alloc input fuel
        (initialRun g state n buffer (initialBufferSize n))).getLast? = some r2 := by
  refine ⟨?_, fun res r2 h => decodeLoop_last_of_trace codec alloc input fuel _ r2 res h⟩
  have hfin : ∀ r : Run σ, r.available_out ≤ r.buffer_size ∧
      r.buffer_size ≤ MAX_BUFFER_SIZE →
      r.available_out ≤ r.buffer_size ∧
      subSz r.buffer_size r.available_out = r.buffer_size - r.available_out ∧
      subSz r.buffer_size r.available_out ≤ r.buffer_size ∧
      r.buffer_size ≤ MAX_BUFFER_SIZE := by
    intro r hr
    have e := subSz_of_le r.buffer_size r.available_out hr.1
      (by rw [SIZE_MOD_eq]; have := hr.2; rw [MAX_BUFFER_SIZE_eq] at this; omega)
    exact ⟨hr.1, e, by rw [e]; omega, hr.2⟩
  have h0 : (initialRun g state n buffer (initialBufferSize n)).available_out
        ≤ (initialRun g state n buffer (initialBufferSize n)).buffer_size ∧
      (initialRun g state n buffer (initialBufferSize n)).buffer_size ≤ MAX_BUFFER_SIZE :=
    ⟨Nat.le_refl _, initialBufferSize_le n⟩
  intro r hr
  apply hfin
  rcases List.mem_cons.mp hr with e | hmem
  · rw [e]; exact h0
  · refine loopTrace_rule codec alloc input
      (fun r3 => r3.available_out ≤ r3.buffer_size ∧ r3.buffer_size ≤ MAX_BUFFER_SIZE)
      ?_ ?_ fuel _ h0 r hmem
    · intro r3 r4 hP hb
      obtain ⟨p1, p2⟩ := hP
      obtain ⟨_, hle, nb, _, rfl⟩ := loopBody_again_inv codec alloc input r3 r4 hb
      have hc := callDecoder_available_out_le codec input r3 hn
      have hm := mulSz_two r3.buffer_size p2
      have hused : subSz r3.buffer_size (callDecoder codec input r3).2.available_out
          = r3.buffer_size - (callDecoder codec input r3).2.available_out :=
        subSz_of_le _ _ (by omega)
          (by rw [SIZE_MOD_eq]; rw [MAX_BUFFER_SIZE_eq] at p2; omega)
      refine ⟨?_, hle⟩
      show subSz (mulSz r3.buffer_size 2)
          (subSz r3.buffer_size (callDecoder codec input r3).2.available_out)
        ≤ mulSz r3.buffer_size 2
      rw [hused, hm, subSz_of_le _ _ (by omega)
        (by rw [SIZE_MOD_eq]; rw [MAX_BUFFER_SIZE_eq] at p2; omega)]
      omega
    · intro r3 res3 r4 hP hb
      obtain ⟨p1, p2⟩ := hP
      have hc := callDecoder_available_out_le codec input r3 hn
      have key : (callDecoder codec input r3).2.available_out ≤ r3.buffer_size ∧
          r3.buffer_size ≤ MAX_BUFFER_SIZE := ⟨by omega, p2⟩
      obtain ⟨_, h5 | h6 | h7 | h0⟩ := loopBody_leave_inv codec alloc input r3 r4 res3 hb
      · obtain ⟨_, _, rfl⟩ := h5; exact key
      · obtain ⟨_, _, _, rfl⟩ := h6; exact key
      · obtain ⟨_, rfl⟩ := h7; exact key
      · obtain ⟨_, rfl⟩ := h0; exact key

/-- Witness for C15: the decoder of the 25 bytes 0 to 24 on a one-byte input
(capacities 10, 20 and 40): the state the loop is left in has 25 bytes filled
of 40. -/
theorem buffer_invariant_on_every_pass_witness :
    (streamOf (List.range 25)).NeverIncreases ∧
    ∀ r ∈ initialRun g_state_init 0 1 (List.replicate 10 170) (initialBufferSize 1) ::
        loopTrace (streamOf (List.range 25)) plentifulHeap [27] 25
          (initialRun g_state_init 0 1 (List.replicate 10 170) (initialBufferSize 1)),
      r.available_out ≤ r.buffer_size ∧
      subSz r.buffer_size r.available_out = r.buffer_size - r.available_out ∧
      subSz r.buffer_size r.available_out ≤ r.buffer_size ∧
      r.buffer_size ≤ MAX_BUFFER_SIZE :=
  ⟨wellBehaved_neverIncreases _ (streamOf_wellBehaved _),
    (buffer_invariant_on_every_pass (streamOf (List.range 25)) plentifulHeap [27] 25
      g_state_init 0 1 (List.replicate 10 170)
      (wellBehaved_neverIncreases _ (streamOf_wellBehaved _))).1⟩

/-! ## Exact size arithmetic -/

/-- C16: for every input length `n` with 1 ≤ n ≤ 52428800, `n * 10` does not
wrap in 32-bit `size_t` arithmetic and the initial capacity is exactly
`min (n * 10) (200 MiB)`, which is the first size asked of the allocator; and
for every state of the loop, whatever the decoder and allocator do, doubling
the capacity does not wrap either. -/
theorem initial_capacity_exact {σ : Type} (codec : Codec σ) (alloc : Allocator)
    (input : List Byte) (fuel : Nat) (g : SafeState) (state : σ) (buffer : List Byte)
    (n : Nat) (h0 : 1 ≤ n) (h1 : n ≤ 50 * 1024 * 1024) :
    n * MAX_DECOMPRESSION_RATIO < SIZE_MOD ∧
    mulSz n MAX_DECOMPRESSION_RATIO = n * 10 ∧
    initialBufferSize n = min (n * 10) (200 * 1024 * 1024) ∧
    (∀ o, safe_decompress_brotli codec alloc fuel g (some input) n = some o →
      o.requests.head? = some (min (n * 10) (200 * 1024 * 1024))) ∧
    ∀ r ∈ initialRun g state n buffer (initialBufferSize n) ::
        loopTrace codec alloc input fuel (initialRun g state n buffer (initialBufferSize n)),
      r.buffer_size * 2 < SIZE_MOD ∧ mulSz r.buffer_size 2 = r.buffer_size * 2 := by
  have hlt : n * MAX_DECOMPRESSION_RATIO < SIZE_MOD := by
    unfold MAX_DECOMPRESSION_RATIO
    rw [SIZE_MOD_eq]
    omega
  have hmul : mulSz n MAX_DECOMPRESSION_RATIO = n * 10 := by
    unfold mulSz
    exact Nat.mod_eq_of_lt hlt
  have hinit : initialBufferSize n = min (n * 10) (200 * 1024 * 1024) := by
    unfold initialBufferSize
    rw [hmul, MAX_BUFFER_SIZE_eq]
    simp only
    split <;> omega
  refine ⟨hlt, hmul, hinit, ?_, ?_⟩
  · intro o hrun
    rw [← hinit]
    rcases safe_decompress_brotli_inv codec alloc fuel g (some input) n o hrun
      with ⟨hbad, _⟩ | ⟨_, hbig, _⟩ | ⟨_, _, _, _, rfl⟩ | ⟨_, _, _, _, _, rfl⟩ |
        ⟨input2, buffer2, state2, res, r, _, _, _, _, _, hl, rfl⟩
    · rcases hbad with hbad | hbad
      · cases hbad
      · omega
    · omega
    · rfl
    · rfl
    · exact publish_requests_head alloc res r _
        (decodeLoop_requests_head codec alloc input2 fuel
          (initialRun g state2 n buffer2 (initialBufferSize n)) r res _ rfl hl)
  · intro r hr
    have hcap := loopTrace_capacity codec alloc input fuel
      (initialRun g state n buffer (initialBufferSize n)) (initialBufferSize_le n) r hr
    have hm := mulSz_two r.buffer_size hcap
    rw [MAX_BUFFER_SIZE_eq] at hcap
    rw [SIZE_MOD_eq]
    omega

/-- Witness for C16: the smallest and the largest accepted input length. -/
theorem initial_capacity_exact_witness :
    (initialBufferSize 1 = min (1 * 10) (200 * 1024 * 1024) ∧
      mulSz 1 MAX_DECOMPRESSION_RATIO = 1 * 10) ∧
    (initialBufferSize 52428800 = min (52428800 * 10) (200 * 1024 * 1024) ∧
      52428800 * MAX_DECOMPRESSION_RATIO < SIZE_MOD) :=
  ⟨⟨(initial_capacity_exact corruptStream plentifulHeap [27] 25 g_state_init () []
        1 (Nat.le_refl _) (by decide)).2.2.1,
      (initial_capacity_exact corruptStream plentifulHeap [27] 25 g_state_init () []
        1 (Nat.le_refl _) (by decide)).2.1⟩,
    ⟨(initial_capacity_exact corruptStream plentifulHeap [27] 25 g_state_init () []
        52428800 (by decide) (by decide)).2.2.1,
      (initial_capacity_exact corruptStream plentifulHeap [27] 25 g_state_init () []
        52428800 (by decide) (by decide)).1⟩⟩


/-! ## Growth steps -/

theorem published_eq_produced {σ : Type} (codec : Codec σ) (alloc : Allocator)
    (fuel : Nat) (g : SafeState) (compressed_data : Option (List Byte))
    (compressed_size : Nat) (o : Outcome) (hw : codec.WellBehaved)
    (hrun : safe_decompress_brotli codec alloc fuel g compressed_data compressed_size = some o)
    (hret : o.ret = 1) :
    o.g.size = o.produced.length ∧ o.g.data = some o.produced := by
  rcases safe_decompress_brotli_inv codec alloc fuel g compressed_data compressed_size o hrun
    with ⟨_, rfl⟩ | ⟨_, _, rfl⟩ | ⟨_, _, _, _, rfl⟩ | ⟨_, _, _, _, _, rfl⟩ |
      ⟨input, buffer, state, res, r, _, _, _, hm, _, hl, rfl⟩
  · cases hret
  · cases hret
  · cases hret
  · cases hret
  · obtain ⟨h1, h2, h3, h4⟩ := decodeLoop_sound codec alloc input hw fuel _ r res
      (initialRun_sound alloc g state compressed_size buffer hm) hl
    have hused : subSz r.buffer_size r.available_out = r.next_out := by
      rw [subSz_of_le _ _ (by omega)
        (by rw [SIZE_MOD_eq]; rw [MAX_BUFFER_SIZE_eq] at h2; omega)]
      omega
    have hlen : r.produced.length = r.next_out := by
      rw [← h4, List.length_take]
      omega
    rcases publish_cases alloc res r with
      ⟨_, e⟩ | ⟨_, _, e⟩ | ⟨_, _, _, e⟩ | ⟨_, _, fresh, hf, e⟩
    · rw [e] at hret; cases hret
    · rw [e] at hret; cases hret
    · rw [e] at hret; cases hret
    · rw [e]
      have hfl := malloc_length alloc _ _ fresh hf
      refine ⟨?_, ?_⟩
      · show subSz r.buffer_size r.available_out = r.produced.length
        rw [hused, hlen]
      · show some (memcpy fresh r.buffer (subSz r.buffer_size r.available_out))
          = some r.produced
        unfold memcpy
        rw [List.drop_of_length_le (Nat.le_of_eq hfl), List.append_nil, hused, h4]

/-- C14: each growth step keeps what was decoded.  Let the buffer agree with
the cursor before a pass (`Run.Sound`, true of the initial state and kept by
every pass) and let the pass end in a growth, for a decoder that stays within
the space it is offered.  With `used = capacity - available_out` after the
decoder call (no underflow), the new capacity is exactly twice the old one,
the new block has that length, its first `used` bytes are the first `used`
bytes of the old block, which are all the bytes written so far, the write
cursor is at offset `used` and `available_out` is the new capacity minus
`used`.  Hence, when the call returns 1, the bytes published are the
concatenation of what the decoder wrote on every call. -/
theorem growth_step_preserves_output {σ : Type} (codec : Codec σ) (alloc : Allocator)
    (input : List Byte) (hw : codec.WellBehaved) :
    (∀ r r2 : Run σ, r.Sound → loopBody codec alloc input r = LoopStep.again r2 →
      ∀ used, used = (callDecoder codec input r).2.buffer_size
          - (callDecoder codec input r).2.available_out →
        (callDecoder codec input r).2.available_out
          ≤ (callDecoder codec input r).2.buffer_size ∧
        (callDecoder codec input r).2.produced
          = r.produced ++ (codec.BrotliDecoderDecompressStream r.state
              (input.drop r.next_in) r.available_in r.available_out).written ∧
        r2.buffer_size = 2 * (callDecoder codec input r).2.buffer_size ∧
        r2.buffer.length = r2.buffer_size ∧
        r2.buffer.take used = (callDecoder codec input r).2.buffer.take used ∧
        r2.buffer.take used = (callDecoder codec input r).2.produced ∧
        r2.produced = (callDecoder codec input r).2.produced ∧
        r2.next_out = used ∧
        r2.available_out = r2.buffer_size - used ∧
        r2.Sound) ∧
    (∀ (alloc2 : Allocator) (g : SafeState) (state : σ) (n : Nat) (buffer : List Byte),
      malloc alloc2 0 (initialBufferSize n) = some buffer →
      (initialRun g state n buffer (initialBufferSize n)).Sound) ∧
    ∀ (fuel : Nat) (g : SafeState) (compressed_data : Option (List Byte))
      (compressed_size : Nat) (o : Outcome),
      safe_decompress_brotli codec alloc fuel g compressed_data compressed_size = some o →
      o.ret = 1 →
      get_decompressed_data o.g = some o.produced ∧
      get_decompressed_size o.g = o.produced.length := by
  refine ⟨?_, fun alloc2 g state n buffer hm => initialRun_sound alloc2 g state n buffer hm,
    fun fuel g cd n o hrun hret => ?_⟩
  · intro r r2 hr hb used hused
    have hs2 := loopBody_again_sound codec alloc input hw r r2 hr hb
    obtain ⟨h1, h2, h3, h4⟩ := callDecoder_sound codec input r hw hr
    obtain ⟨_, hle, nb, hre, rfl⟩ := loopBody_again_inv codec alloc input r r2 hb
    have e1 : (callDecoder codec input r).2.buffer_size = r.buffer_size := rfl
    rw [e1] at h1 h2 h3 hused ⊢
    have hm := mulSz_two r.buffer_size h2
    have hlt : r.buffer_size < SIZE_MOD := by
      rw [SIZE_MOD_eq]; rw [MAX_BUFFER_SIZE_eq] at h2; omega
    have hnext : (callDecoder codec input r).2.next_out = used := by omega
    have hsub : subSz r.buffer_size (callDecoder codec input r).2.available_out = used := by
      rw [subSz_of_le _ _ (by omega) hlt, hused]
    obtain ⟨s1, _, s3, s4⟩ := hs2
    refine ⟨by omega, rfl, hm, s1, ?_, ?_, rfl, hsub, ?_, ⟨s1, hle, s3, s4⟩⟩
    · have s4b : List.take (subSz r.buffer_size (callDecoder codec input r).2.available_out) nb
          = (callDecoder codec input r).2.produced := s4
      rw [hsub] at s4b
      rw [← hnext, h4]
      rw [← hnext] at s4b
      exact s4b
    · have s4b : List.take (subSz r.buffer_size (callDecoder codec input r).2.available_out) nb
          = (callDecoder codec input r).2.produced := s4
      rw [hsub] at s4b
      exact s4b
    · show subSz (mulSz r.buffer_size 2)
          (subSz r.buffer_size (callDecoder codec input r).2.available_out)
        = mulSz r.buffer_size 2 - used
      rw [hsub, hm, subSz_of_le _ _ (by omega)
        (by rw [SIZE_MOD_eq]; rw [MAX_BUFFER_SIZE_eq] at h2; omega)]
  · obtain ⟨hsz, hd⟩ := published_eq_produced codec alloc fuel g cd n o hw hrun hret
    exact ⟨hd, hsz⟩

/-- Witness for C14: the first pass for a one-byte input whose stream decodes
to the bytes 0 to 24.  The decoder fills the 10-byte buffer; the grown buffer
has 20 bytes and starts with the bytes 0 to 9, and the cursor is at offset
10 with 10 bytes available. -/
theorem growth_step_preserves_output_witness :
    firstRun.Sound ∧
    loopBody (streamOf (List.range 25)) plentifulHeap [27] firstRun
      = LoopStep.again grownRun ∧
    grownRun.buffer_size = 20 ∧ grownRun.buffer.length = 20 ∧
    grownRun.buffer.take 10 = List.range 10 ∧
    grownRun.produced = List.range 10 ∧
    grownRun.next_out = 10 ∧ grownRun.available_out = 10 ∧
    grownRun.buffer_size
      = 2 * (callDecoder (streamOf (List.range 25)) [27] firstRun).2.buffer_size ∧
    grownRun.buffer.take 10
      = (callDecoder (streamOf (List.range 25)) [27] firstRun).2.buffer.take 10 :=
  have hs : firstRun.Sound := initialRun_sound plentifulHeap g_state_init 0 1 _ rfl
  have hb : loopBody (streamOf (List.range 25)) plentifulHeap [27] firstRun
      = LoopStep.again grownRun := rfl
  have key := (growth_step_preserves_output (streamOf (List.range 25)) plentifulHeap [27]
    (streamOf_wellBehaved _)).1 firstRun grownRun hs hb 10 rfl
  ⟨hs, hb, by decide, by decide, by decide, by decide, by decide, by decide,
    key.2.2.1, key.2.2.2.2.1⟩


/-! ## Notifications -/

theorem notify_hooked (h : Host) (n : Notification) (hh : h.hook = true) :
    (notify h n).notifications = h.notifications ++ [n] := by
  unfold notify
  rw [if_pos hh]

theorem download_failed_notifies (h : Host) (fetch : Fetch) (hh : h.hook = true) :
    (download_failed h fetch).notifications = h.notifications ++ [⟨0, 0, 0, fetch.status⟩] := by
  unfold download_failed
  exact notify_hooked _ _ hh

theorem download_success_notifies {σ : Type} (codec : Codec σ) (alloc : Allocator)
    (fuel : Nat) (h h2 : Host) (fetch : Fetch) (now0 now1 now2 : Int) (hh : h.hook = true)
    (hdata : fetch.data ≠ none) (hbytes : fetch.numBytes ≠ 0)
    (hrun : download_success codec alloc fuel h fetch now0 now1 now2 = some h2) :
    ∃ n, h2.notifications = h.notifications ++ [n] := by
  unfold download_success at hrun
  simp only at hrun
  rw [if_neg (by intro hc; rcases hc with hc | hc; exact hdata hc; exact hbytes hc)] at hrun
  cases ho : safe_decompress_brotli codec alloc fuel
      { h.g_state with download_time := now0 - h.g_state.download_time } fetch.data
      (fetch.numBytes % SIZE_MOD) with
  | none => rw [ho] at hrun; cases hrun
  | some o =>
    rw [ho] at hrun
    simp only [Option.some.injEq] at hrun
    rw [← hrun]
    by_cases hret : o.ret ≠ 0
    · rw [if_pos hret]
      exact ⟨_, notify_hooked _ _ hh⟩
    · rw [if_neg hret]
      exact ⟨_, notify_hooked _ _ hh⟩

/-- C12 fails on the code: on a host that defines `onDecompressionComplete`
and has a transfer pending, `download_success` called with an empty payload
(zero bytes, or a null data pointer) records error 10 and returns without any
notification: the log stays empty. -/
theorem empty_payload_sends_no_notification :
    (download_success corruptStream plentifulHeap 25 pendingHost ⟨some [], 0, 200⟩
        150 150 150).map (fun h => (h.notifications, get_error_code h.g_state, h.closed))
      = some ([], 10, 1) ∧
    (download_success corruptStream plentifulHeap 25 pendingHost ⟨none, 0, 200⟩
        150 150 150).map (fun h => (h.notifications, get_error_code h.g_state, h.closed))
      = some ([], 10, 1) := by
  decide

/-- C13 fails on the code: on a host with a reset result slot and a transfer
pending, a payload on which the decoder reports `NEEDS_MORE_INPUT` makes
`safe_decompress_brotli` return 0 with no error recorded, and the notification
sent for this failure carries error code 0; and `download_failed` with fetch
status 0 sends the notification (0, 0, 0, 0). -/
theorem failure_notified_with_code_zero :
    (download_success truncatedStream plentifulHeap 25 pendingHost ⟨some [27], 1, 200⟩
        150 160 170).map (fun h => h.notifications)
      = some [⟨50, 10, 0, 0⟩] ∧
    (download_failed pendingHost ⟨none, 0, 0⟩).notifications = [⟨0, 0, 0, 0⟩] := by
  decide

end SfDecoder
